import Mathlib

/-!
Verification of the client-side handshake state machine of the
secret-handshake implementation (`src/client.rs`).

The embedding models `UnsafeClientHandshaker` and its `Future::poll`
implementation as a pure function.  The transport stream (`AsyncRead +
AsyncWrite`) is modelled as a finite oracle: a list of responses, one
consumed per `poll_write` / `poll_read` / `poll_flush` call.  An exhausted
oracle behaves like a stream that reports would-block (`Pending`).

The crypto engine (`crypto.rs`, `Client`) and the error type (`errors.rs`)
are not part of the provided sources; the engine is kept fully abstract
(the state machine is proved correct for every engine), and the error
taxonomy and message-size constants are modelled from the spec.

`poll` additionally returns a log of events recording, in order, every
stream operation performed (with the slice bounds requested), every
assignment to the `state` field (with the value of `offset` at that
assignment), and the `create_msg3` materialization of the buffer.  The
events are emitted exactly at the corresponding points of the source.
-/

namespace SecretHandshake

/-- Modelled from the spec: wire-format sizes (§6) of the four fixed-size
messages; the constants themselves live in the missing `crypto.rs`. -/
def MSG1_BYTES : Nat := 64

/-- Modelled from the spec: size of message 2. -/
def MSG2_BYTES : Nat := 64

/-- Modelled from the spec: size of message 3; this is also the size of the
reusable `data` buffer of `UnsafeClientHandshaker`. -/
def MSG3_BYTES : Nat := 112

/-- Modelled from the spec: size of message 4. -/
def MSG4_BYTES : Nat := 80

/-- Kinds of I/O errors relevant to the state machine: `WriteZero` and
`UnexpectedEof` are produced by `poll` itself via `Error::new`; other kinds
(tagged by a code) come from the underlying stream. -/
inductive IoErrorKind where
  | writeZero
  | unexpectedEof
  | other (code : Nat)
deriving DecidableEq, Repr

/-- Modelled from the spec: the error taxonomy of `errors.rs` (§7):
`CryptoError` for failed cryptographic verification, and a wrapper for
transport errors (`From<io::Error> for HandshakeError`). -/
inductive HandshakeError where
  | cryptoError
  | ioError (k : IoErrorKind)
deriving DecidableEq, Repr

/-- One response of the transport stream to a single `poll_write`,
`poll_read` or `poll_flush` call.  For a write, `ready p` means the stream
reported `p.length` bytes written; for a read, `ready p` means the stream
placed the bytes `p` (truncated to the provided slice) and reported
`p.length` bytes read; for a flush, any `ready` means the flush completed.
`pending` is would-block, `ioErr` a stream-side I/O error. -/
inductive Action where
  | ready (payload : List Nat)
  | pending
  | ioErr (k : IoErrorKind)
deriving DecidableEq, Repr

/-- The `State` enum of `client.rs` (lines 319-327). -/
inductive State where
  | WriteMsg1
  | FlushMsg1
  | ReadMsg2
  | WriteMsg3
  | FlushMsg3
  | ReadMsg4
deriving DecidableEq, Repr

/-- Position of a state in the fixed forward sequence. -/
def stateIdx : State → Nat
  | State.WriteMsg1 => 0
  | State.FlushMsg1 => 1
  | State.ReadMsg2 => 2
  | State.WriteMsg3 => 3
  | State.FlushMsg3 => 4
  | State.ReadMsg4 => 5

/-- Events logged by the embedded `poll`: stream operations with the slice
bounds they were invoked with (`offAt` = `self.offset` at the call,
`msgEnd` = the constant upper bound of the slice `data[offset..msgEnd]`),
assignments to `self.state` together with the value of `self.offset`
right after the transition block, and the `create_msg3` call recording the
bytes it materializes into the buffer. -/
inductive Ev where
  | wroteReq (offAt msgEnd : Nat) (a : Action)
  | readReq (offAt msgEnd : Nat) (a : Action)
  | flushReq (a : Action)
  | setState (s : State) (off : Nat)
  | createdMsg3 (bs : List Nat)
deriving DecidableEq, Repr

/-- Result of one `poll` call: `Ok(Pending)`, `Ok(Ready((outcome, stream)))`,
`Err((error, stream))`, or a panic (the `expect` on the taken-out stream).
The stream carried by `ready` / `failed` is the unconsumed remainder of the
oracle, modelling transfer of ownership of the stream to the caller. -/
inductive PollRes (O : Type) where
  | pending
  | ready (o : O) (s : List Action)
  | failed (e : HandshakeError) (s : List Action)
  | panicked
deriving DecidableEq, Repr

/-- The abstract crypto engine: the operations of `crypto::Client` used by
the client state machine.  `crypto.rs` is not among the provided sources,
so the engine is a parameter; operations that may update the engine state
return the new engine value alongside their result. -/
structure ClientOps (C O : Type) where
  client_new : List Nat → List Nat → List Nat → List Nat → List Nat → List Nat → C
  create_msg1 : C → List Nat × C
  verify_msg2 : C → List Nat → Bool × C
  create_msg3 : C → List Nat × C
  verify_msg4 : C → List Nat → Bool × C
  outcome : C → O

/-- The `UnsafeClientHandshaker` struct (`client.rs` lines 111-117): the
optional stream (taken out by `poll`, stored back on suspension), the
crypto engine, the current state, the reusable `data` buffer and the
`offset` into it. -/
structure UnsafeClientHandshaker (C : Type) where
  stream : Option (List Action)
  client : C
  state : State
  data : List Nat
  offset : Nat
deriving DecidableEq, Repr

/-- Overwrite the bytes of `d` starting at position `i` with `p` (the
effect of the stream writing into the slice `&mut d[i..]`). -/
def overwrite (d : List Nat) (i : Nat) (p : List Nat) : List Nat :=
  d.take i ++ p ++ d.drop (i + p.length)

/-- Result of the write/read `while` loops of `poll`: the loop either
completed (offset reached the message end), suspended on would-block, or
failed with an I/O error.  Each constructor carries the buffer, the
offset and the remaining stream at that point. -/
inductive IoLoopRes where
  | completed (d : List Nat) (o : Nat) (s : List Action)
  | suspended (d : List Nat) (o : Nat) (s : List Action)
  | ioFailed (d : List Nat) (o : Nat) (e : HandshakeError) (s : List Action)
deriving DecidableEq, Repr

/-- The write loop of `poll` (`while self.offset < N { match
stream.poll_write(cx, &self.data[self.offset..N]) ... }`): a reported
write of `0` bytes is a fatal `WriteZero` error, would-block suspends,
a stream error is returned, otherwise `offset` advances by the reported
count.  An exhausted oracle suspends. -/
def writeLoop (m : Nat) (d : List Nat) (o : Nat) (s : List Action) : IoLoopRes × List Ev :=
  if o < m then
    match s with
    | [] => (IoLoopRes.suspended d o [], [])
    | Action.ready p :: rest =>
      if p.length = 0 then
        (IoLoopRes.ioFailed d o (HandshakeError.ioError IoErrorKind.writeZero) rest,
         [Ev.wroteReq o m (Action.ready p)])
      else
        let r := writeLoop m d (o + p.length) rest
        (r.1, Ev.wroteReq o m (Action.ready p) :: r.2)
    | Action.pending :: rest =>
      (IoLoopRes.suspended d o rest, [Ev.wroteReq o m Action.pending])
    | Action.ioErr k :: rest =>
      (IoLoopRes.ioFailed d o (HandshakeError.ioError k) rest,
       [Ev.wroteReq o m (Action.ioErr k)])
  else (IoLoopRes.completed d o s, [])

/-- The read loop of `poll` (`while self.offset < N { match
stream.poll_read(cx, &mut self.data[self.offset..N]) ... }`): a reported
read of `0` bytes is a fatal `UnexpectedEof`, would-block suspends, a
stream error is returned, otherwise the delivered bytes (truncated to the
slice) are written into the buffer and `offset` advances by the reported
count.  An exhausted oracle suspends. -/
def readLoop (m : Nat) (d : List Nat) (o : Nat) (s : List Action) : IoLoopRes × List Ev :=
  if o < m then
    match s with
    | [] => (IoLoopRes.suspended d o [], [])
    | Action.ready p :: rest =>
      if p.length = 0 then
        (IoLoopRes.ioFailed d o (HandshakeError.ioError IoErrorKind.unexpectedEof) rest,
         [Ev.readReq o m (Action.ready p)])
      else
        let r := readLoop m (overwrite d o (p.take (m - o))) (o + p.length) rest
        (r.1, Ev.readReq o m (Action.ready p) :: r.2)
    | Action.pending :: rest =>
      (IoLoopRes.suspended d o rest, [Ev.readReq o m Action.pending])
    | Action.ioErr k :: rest =>
      (IoLoopRes.ioFailed d o (HandshakeError.ioError k) rest,
       [Ev.readReq o m (Action.ioErr k)])
  else (IoLoopRes.completed d o s, [])

/-- The `ReadMsg4` branch of `poll` (lines 283-313): read the remaining
bytes of message 4, then `verify_msg4` on the first `MSG4_BYTES` bytes of
the buffer; on success derive the outcome and return `Ready` (consuming
the stream), on failure return `CryptoError` with the stream. -/
def pollReadMsg4 {C O : Type} (E : ClientOps C O) (c : C) (d : List Nat) (o : Nat)
    (s : List Action) : PollRes O × UnsafeClientHandshaker C × List Ev :=
  match readLoop MSG4_BYTES d o s with
  | (IoLoopRes.completed d' o' s', l) =>
    let v := E.verify_msg4 c (d'.take MSG4_BYTES)
    if v.1 then
      (PollRes.ready (E.outcome v.2) s', ⟨none, v.2, State.ReadMsg4, d', o'⟩, l)
    else
      (PollRes.failed HandshakeError.cryptoError s', ⟨none, v.2, State.ReadMsg4, d', o'⟩, l)
  | (IoLoopRes.suspended d' o' s', l) =>
    (PollRes.pending, ⟨some s', c, State.ReadMsg4, d', o'⟩, l)
  | (IoLoopRes.ioFailed d' o' e s', l) =>
    (PollRes.failed e s', ⟨none, c, State.ReadMsg4, d', o'⟩, l)

/-- The `FlushMsg3` branch of `poll` (lines 268-281): flush, then transition
to `ReadMsg4` (no offset assignment in the source) and continue. -/
def pollFlushMsg3 {C O : Type} (E : ClientOps C O) (c : C) (d : List Nat) (o : Nat)
    (s : List Action) : PollRes O × UnsafeClientHandshaker C × List Ev :=
  match s with
  | [] => (PollRes.pending, ⟨some [], c, State.FlushMsg3, d, o⟩, [])
  | Action.ready p :: rest =>
    let r := pollReadMsg4 E c d o rest
    (r.1, r.2.1, Ev.flushReq (Action.ready p) :: Ev.setState State.ReadMsg4 o :: r.2.2)
  | Action.pending :: rest =>
    (PollRes.pending, ⟨some rest, c, State.FlushMsg3, d, o⟩, [Ev.flushReq Action.pending])
  | Action.ioErr k :: rest =>
    (PollRes.failed (HandshakeError.ioError k) rest, ⟨none, c, State.FlushMsg3, d, o⟩,
     [Ev.flushReq (Action.ioErr k)])

/-- The `WriteMsg3` branch of `poll` (lines 244-266): write the remaining
bytes of message 3 (`WriteZero` on a zero-length write), then reset the
offset to `0`, transition to `FlushMsg3` and continue. -/
def pollWriteMsg3 {C O : Type} (E : ClientOps C O) (c : C) (d : List Nat) (o : Nat)
    (s : List Action) : PollRes O × UnsafeClientHandshaker C × List Ev :=
  match writeLoop MSG3_BYTES d o s with
  | (IoLoopRes.completed d' _ s', l) =>
    let r := pollFlushMsg3 E c d' 0 s'
    (r.1, r.2.1, l ++ Ev.setState State.FlushMsg3 0 :: r.2.2)
  | (IoLoopRes.suspended d' o' s', l) =>
    (PollRes.pending, ⟨some s', c, State.WriteMsg3, d', o'⟩, l)
  | (IoLoopRes.ioFailed d' o' e s', l) =>
    (PollRes.failed e s', ⟨none, c, State.WriteMsg3, d', o'⟩, l)

/-- The `ReadMsg2` branch of `poll` (lines 210-242): read the remaining
bytes of message 2 (`UnexpectedEof` on a zero-length read), then
`verify_msg2` on the first `MSG2_BYTES` bytes of the buffer; on failure
return `CryptoError` with the stream; on success reset the offset to `0`,
transition to `WriteMsg3`, materialize message 3 into the buffer via
`create_msg3`, and continue. -/
def pollReadMsg2 {C O : Type} (E : ClientOps C O) (c : C) (d : List Nat) (o : Nat)
    (s : List Action) : PollRes O × UnsafeClientHandshaker C × List Ev :=
  match readLoop MSG2_BYTES d o s with
  | (IoLoopRes.completed d' o' s', l) =>
    let v := E.verify_msg2 c (d'.take MSG2_BYTES)
    if v.1 then
      let cr := E.create_msg3 v.2
      let r := pollWriteMsg3 E cr.2 cr.1 0 s'
      (r.1, r.2.1,
       l ++ Ev.setState State.WriteMsg3 0 :: Ev.createdMsg3 cr.1 :: r.2.2)
    else
      (PollRes.failed HandshakeError.cryptoError s', ⟨none, v.2, State.ReadMsg2, d', o'⟩, l)
  | (IoLoopRes.suspended d' o' s', l) =>
    (PollRes.pending, ⟨some s', c, State.ReadMsg2, d', o'⟩, l)
  | (IoLoopRes.ioFailed d' o' e s', l) =>
    (PollRes.failed e s', ⟨none, c, State.ReadMsg2, d', o'⟩, l)

/-- The `FlushMsg1` branch of `poll` (lines 195-208): flush, then transition
to `ReadMsg2` (no offset assignment in the source) and continue. -/
def pollFlushMsg1 {C O : Type} (E : ClientOps C O) (c : C) (d : List Nat) (o : Nat)
    (s : List Action) : PollRes O × UnsafeClientHandshaker C × List Ev :=
  match s with
  | [] => (PollRes.pending, ⟨some [], c, State.FlushMsg1, d, o⟩, [])
  | Action.ready p :: rest =>
    let r := pollReadMsg2 E c d o rest
    (r.1, r.2.1, Ev.flushReq (Action.ready p) :: Ev.setState State.ReadMsg2 o :: r.2.2)
  | Action.pending :: rest =>
    (PollRes.pending, ⟨some rest, c, State.FlushMsg1, d, o⟩, [Ev.flushReq Action.pending])
  | Action.ioErr k :: rest =>
    (PollRes.failed (HandshakeError.ioError k) rest, ⟨none, c, State.FlushMsg1, d, o⟩,
     [Ev.flushReq (Action.ioErr k)])

/-- The `WriteMsg1` branch of `poll` (lines 170-193): write the remaining
bytes of message 1 (`WriteZero` on a zero-length write), then reset the
offset to `0`, transition to `FlushMsg1` and continue. -/
def pollWriteMsg1 {C O : Type} (E : ClientOps C O) (c : C) (d : List Nat) (o : Nat)
    (s : List Action) : PollRes O × UnsafeClientHandshaker C × List Ev :=
  match writeLoop MSG1_BYTES d o s with
  | (IoLoopRes.completed d' _ s', l) =>
    let r := pollFlushMsg1 E c d' 0 s'
    (r.1, r.2.1, l ++ Ev.setState State.FlushMsg1 0 :: r.2.2)
  | (IoLoopRes.suspended d' o' s', l) =>
    (PollRes.pending, ⟨some s', c, State.WriteMsg1, d', o'⟩, l)
  | (IoLoopRes.ioFailed d' o' e s', l) =>
    (PollRes.failed e s', ⟨none, c, State.WriteMsg1, d', o'⟩, l)

/-- `Future::poll` for `UnsafeClientHandshaker` (lines 164-315): take the
stream out of `self.stream` (panicking after completion), then dispatch on
`self.state`.  The returned handshaker is the post-call value of `self`
(unchanged when the call panics, which in Rust does not return). -/
def UnsafeClientHandshaker.poll {C O : Type} (E : ClientOps C O)
    (h : UnsafeClientHandshaker C) : PollRes O × UnsafeClientHandshaker C × List Ev :=
  match h.stream with
  | none => (PollRes.panicked, h, [])
  | some s =>
    match h.state with
    | State.WriteMsg1 => pollWriteMsg1 E h.client h.data h.offset s
    | State.FlushMsg1 => pollFlushMsg1 E h.client h.data h.offset s
    | State.ReadMsg2 => pollReadMsg2 E h.client h.data h.offset s
    | State.WriteMsg3 => pollWriteMsg3 E h.client h.data h.offset s
    | State.FlushMsg3 => pollFlushMsg3 E h.client h.data h.offset s
    | State.ReadMsg4 => pollReadMsg4 E h.client h.data h.offset s

/-- `UnsafeClientHandshaker::new` (lines 119-150): build the crypto engine
from the key material, start in `WriteMsg1` with a zeroed `MSG3_BYTES`
buffer and offset `0`, then materialize message 1 into the first
`MSG1_BYTES` bytes of the buffer. -/
def UnsafeClientHandshaker.new {C O : Type} (E : ClientOps C O) (stream : List Action)
    (ni lpk lsk epk esk spk : List Nat) : UnsafeClientHandshaker C :=
  let c0 := E.client_new ni lpk lsk epk esk spk
  let m1 := E.create_msg1 c0
  ⟨some stream, m1.2, State.WriteMsg1,
   overwrite (List.replicate MSG3_BYTES 0) 0 ((m1.1).take MSG1_BYTES), 0⟩

/-- `Drop for UnsafeClientHandshaker` (lines 152-157): `memzero` the data
buffer.  `memzero` (sodiumoxide) overwrites every byte with zero in
place. -/
def memzero (d : List Nat) : List Nat :=
  d.map (fun _ => 0)

/-- The `Drop` implementation: zero the buffer before the memory is
released. -/
def dropUnsafeClientHandshaker {C : Type} (h : UnsafeClientHandshaker C) :
    UnsafeClientHandshaker C :=
  ⟨h.stream, h.client, h.state, memzero h.data, h.offset⟩

/-- `ClientHandshaker` (line 18): a newtype over `UnsafeClientHandshaker`
(the `PhantomData` lifetime marker carries no data). -/
structure ClientHandshaker (C : Type) where
  inner : UnsafeClientHandshaker C

/-- `ClientHandshaker::new` (lines 20-40): delegate to
`UnsafeClientHandshaker::new` with the borrowed key material. -/
def ClientHandshaker.new {C O : Type} (E : ClientOps C O) (stream : List Action)
    (ni lpk lsk epk esk spk : List Nat) : ClientHandshaker C :=
  ⟨UnsafeClientHandshaker.new E stream ni lpk lsk epk esk spk⟩

/-- `Future::poll` for `ClientHandshaker` (lines 43-50): `self.0.poll(cx)`. -/
def ClientHandshaker.poll {C O : Type} (E : ClientOps C O) (h : ClientHandshaker C) :
    PollRes O × ClientHandshaker C × List Ev :=
  let r := UnsafeClientHandshaker.poll E h.inner
  (r.1, ⟨r.2.1⟩, r.2.2)

/-- `OwningClientHandshaker` (lines 54-62): boxed copies of the key
material plus the inner `UnsafeClientHandshaker`. -/
structure OwningClientHandshaker (C : Type) where
  network_identifier : List Nat
  client_longterm_pk : List Nat
  client_longterm_sk : List Nat
  client_ephemeral_pk : List Nat
  client_ephemeral_sk : List Nat
  server_longterm_pk : List Nat
  inner : UnsafeClientHandshaker C

/-- `OwningClientHandshaker::new` (lines 64-98): clone each key into a box
and build the inner handshaker from references to the clones. -/
def OwningClientHandshaker.new {C O : Type} (E : ClientOps C O) (stream : List Action)
    (ni lpk lsk epk esk spk : List Nat) : OwningClientHandshaker C :=
  ⟨ni, lpk, lsk, epk, esk, spk,
   UnsafeClientHandshaker.new E stream ni lpk lsk epk esk spk⟩

/-- `Future::poll` for `OwningClientHandshaker` (lines 101-108):
`self.inner.poll(cx)`. -/
def OwningClientHandshaker.poll {C O : Type} (E : ClientOps C O)
    (h : OwningClientHandshaker C) : PollRes O × OwningClientHandshaker C × List Ev :=
  let r := UnsafeClientHandshaker.poll E h.inner
  (r.1, ⟨h.network_identifier, h.client_longterm_pk, h.client_longterm_sk,
         h.client_ephemeral_pk, h.client_ephemeral_sk, h.server_longterm_pk, r.2.1⟩,
   r.2.2)

/-- Repeated polling: thread the handshaker through `n` successive `poll`
calls and concatenate the event logs. -/
def pollIter {C O : Type} (E : ClientOps C O) (h : UnsafeClientHandshaker C) :
    Nat → UnsafeClientHandshaker C × List Ev
  | 0 => (h, [])
  | n + 1 =>
    let r := UnsafeClientHandshaker.poll E h
    let t := pollIter E r.2.1 n
    (t.1, r.2.2 ++ t.2)

/-- The per-call results and logs of `n` successive polls of a
`ClientHandshaker`. -/
def clientTrace {C O : Type} (E : ClientOps C O) (h : ClientHandshaker C) :
    Nat → List (PollRes O × List Ev)
  | 0 => []
  | n + 1 =>
    let r := ClientHandshaker.poll E h
    (r.1, r.2.2) :: clientTrace E r.2.1 n

/-- The per-call results and logs of `n` successive polls of an
`OwningClientHandshaker`. -/
def owningTrace {C O : Type} (E : ClientOps C O) (h : OwningClientHandshaker C) :
    Nat → List (PollRes O × List Ev)
  | 0 => []
  | n + 1 =>
    let r := OwningClientHandshaker.poll E h
    (r.1, r.2.2) :: owningTrace E r.2.1 n

/-- The indices of the states assigned (in order) during an execution, as
recorded by the `setState` events of a log. -/
def setStateIdxs (l : List Ev) : List Nat :=
  l.filterMap (fun e =>
    match e with
    | Ev.setState st _ => some (stateIdx st)
    | _ => none)

/-- `StrictAsc a l`: every element of `l` is strictly larger than its
predecessor, with `a` preceding the first element. -/
def StrictAsc (a : Nat) : List Nat → Prop
  | [] => True
  | b :: t => a < b ∧ StrictAsc b t

/-- The last element of a list, or `a` when the list is empty. -/
def lastD (l : List Nat) (a : Nat) : Nat :=
  match l with
  | [] => a
  | b :: t => lastD t b

/-- Every `setState` event whose target is `WriteMsg3` is immediately
followed by the `createdMsg3` event: message 3 is materialized into the
buffer at the transition, before anything else happens in that state. -/
def Msg3Adj : List Ev → Prop
  | [] => True
  | Ev.setState State.WriteMsg3 _ :: t =>
    (match t with
     | Ev.createdMsg3 _ :: _ => True
     | _ => False) ∧ Msg3Adj t
  | _ :: t => Msg3Adj t

/-- In the flush states the offset is zero (it was reset by the preceding
write-state transition and flushing never changes it).  This is the
invariant that justifies the absence of an offset assignment at the
`FlushMsg1 → ReadMsg2` and `FlushMsg3 → ReadMsg4` transitions. -/
def FlushInv {C : Type} (h : UnsafeClientHandshaker C) : Prop :=
  (h.state = State.FlushMsg1 ∨ h.state = State.FlushMsg3) → h.offset = 0

/-- The byte length of the message being transferred in each state (for
the flush states, the length of the message just written). -/
def stateBound : State → Nat
  | State.WriteMsg1 => MSG1_BYTES
  | State.FlushMsg1 => MSG1_BYTES
  | State.ReadMsg2 => MSG2_BYTES
  | State.WriteMsg3 => MSG3_BYTES
  | State.FlushMsg3 => MSG3_BYTES
  | State.ReadMsg4 => MSG4_BYTES

/-- The configuration invariant for buffer safety: the offset never
exceeds the current message length, flush states have offset zero, and
the buffer has its fixed size `MSG3_BYTES`. -/
def Inv {C : Type} (h : UnsafeClientHandshaker C) : Prop :=
  h.offset ≤ stateBound h.state ∧ FlushInv h ∧ h.data.length = MSG3_BYTES

/-- A single logged event is well behaved when, if it is a successful
read or write, the stream reported at most the length of the slice it
was given. -/
def WbEv : Ev → Prop
  | Ev.wroteReq o m (Action.ready p) => p.length ≤ m - o
  | Ev.readReq o m (Action.ready p) => p.length ≤ m - o
  | _ => True

/-- A log is well behaved when each of its read/write responses reported
at most the requested slice length. -/
def WbLog (l : List Ev) : Prop :=
  ∀ e ∈ l, WbEv e

/-- A logged stream operation accessed the buffer in bounds: the slice
`data[offAt..msgEnd]` taken from the `MSG3_BYTES`-sized buffer has
`offAt ≤ msgEnd` and `msgEnd ≤ MSG3_BYTES`. -/
def EvBounds : Ev → Prop
  | Ev.wroteReq o m _ => o < m ∧ m ≤ MSG3_BYTES
  | Ev.readReq o m _ => o < m ∧ m ≤ MSG3_BYTES
  | _ => True

/-- The engine writes exactly `MSG3_BYTES` bytes when materializing
message 3 (in Rust this is enforced by the `[u8; MSG3_BYTES]` type of the
out-parameter of `create_msg3`). -/
def EngineWf {C O : Type} (E : ClientOps C O) : Prop :=
  ∀ c : C, ((E.create_msg3 c).1).length = MSG3_BYTES

/-- Frame facts about a write-loop result: the buffer is untouched and,
under a well-behaved stream, the offset stays within the message bound. -/
def WriteLoopOut (d : List Nat) (m : Nat) : IoLoopRes → Prop
  | IoLoopRes.completed d' o' _ => d' = d ∧ o' ≤ m
  | IoLoopRes.suspended d' o' _ => d' = d ∧ o' ≤ m
  | IoLoopRes.ioFailed d' o' _ _ => d' = d ∧ o' ≤ m

/-- Frame facts about a read-loop result: the buffer keeps its length `n`
and, under a well-behaved stream, the offset stays within the message
bound. -/
def ReadLoopOut (n m : Nat) : IoLoopRes → Prop
  | IoLoopRes.completed d' o' _ => d'.length = n ∧ o' ≤ m
  | IoLoopRes.suspended d' o' _ => d'.length = n ∧ o' ≤ m
  | IoLoopRes.ioFailed d' o' _ _ => d'.length = n ∧ o' ≤ m

instance instDecWbEv : DecidablePred WbEv := fun e =>
  match e with
  | Ev.wroteReq o m (Action.ready p) => inferInstanceAs (Decidable (p.length ≤ m - o))
  | Ev.wroteReq _ _ Action.pending => isTrue trivial
  | Ev.wroteReq _ _ (Action.ioErr _) => isTrue trivial
  | Ev.readReq o m (Action.ready p) => inferInstanceAs (Decidable (p.length ≤ m - o))
  | Ev.readReq _ _ Action.pending => isTrue trivial
  | Ev.readReq _ _ (Action.ioErr _) => isTrue trivial
  | Ev.flushReq _ => isTrue trivial
  | Ev.setState _ _ => isTrue trivial
  | Ev.createdMsg3 _ => isTrue trivial

instance instDecWbLog (l : List Ev) : Decidable (WbLog l) :=
  inferInstanceAs (Decidable (∀ e ∈ l, WbEv e))

instance instDecFlushInv {C' : Type} (h : UnsafeClientHandshaker C') :
    Decidable (FlushInv h) :=
  inferInstanceAs
    (Decidable ((h.state = State.FlushMsg1 ∨ h.state = State.FlushMsg3) → h.offset = 0))

instance instDecInv {C' : Type} (h : UnsafeClientHandshaker C') : Decidable (Inv h) :=
  inferInstanceAs
    (Decidable (h.offset ≤ stateBound h.state ∧ FlushInv h ∧ h.data.length = MSG3_BYTES))

/-- The event logged when the stream reports would-block in each state. -/
def suspendEv (st : State) (o : Nat) : Ev :=
  match st with
  | State.WriteMsg1 => Ev.wroteReq o MSG1_BYTES Action.pending
  | State.FlushMsg1 => Ev.flushReq Action.pending
  | State.ReadMsg2 => Ev.readReq o MSG2_BYTES Action.pending
  | State.WriteMsg3 => Ev.wroteReq o MSG3_BYTES Action.pending
  | State.FlushMsg3 => Ev.flushReq Action.pending
  | State.ReadMsg4 => Ev.readReq o MSG4_BYTES Action.pending

/-- The configuration is about to consult the stream: in a write or read
state the current message is not yet fully transferred (in the flush
states the stream is always consulted first). -/
def AboutToPoll {C : Type} (h : UnsafeClientHandshaker C) : Prop :=
  match h.state with
  | State.WriteMsg1 => h.offset < MSG1_BYTES
  | State.FlushMsg1 => True
  | State.ReadMsg2 => h.offset < MSG2_BYTES
  | State.WriteMsg3 => h.offset < MSG3_BYTES
  | State.FlushMsg3 => True
  | State.ReadMsg4 => h.offset < MSG4_BYTES

/-- A concrete crypto engine over trivial client and outcome types, used
to evaluate the state machine on concrete inputs; the two booleans fix the
results of `verify_msg2` and `verify_msg4`. -/
def testOps (b2 b4 : Bool) : ClientOps Unit Unit :=
  ⟨fun _ _ _ _ _ _ => (),
   fun c => (List.replicate MSG1_BYTES 1, c),
   fun c _ => (b2, c),
   fun c => (List.replicate MSG3_BYTES 2, c),
   fun c _ => (b4, c),
   fun _ => ()⟩

/-- Concrete handshaker in `ReadMsg2` about to receive a full message 2. -/
def fixtureRead2 : UnsafeClientHandshaker Unit :=
  ⟨some [Action.ready (List.replicate 64 9), Action.ready [7]], (), State.ReadMsg2,
   List.replicate MSG3_BYTES 0, 0⟩

/-- Concrete handshaker in `ReadMsg4` about to receive a full message 4. -/
def fixtureRead4 : UnsafeClientHandshaker Unit :=
  ⟨some [Action.ready (List.replicate 80 9), Action.ready [7]], (), State.ReadMsg4,
   List.replicate MSG3_BYTES 0, 0⟩

/-- Concrete handshaker in `WriteMsg1` whose stream reports an I/O error. -/
def fixtureErr1 : UnsafeClientHandshaker Unit :=
  ⟨some [Action.ioErr (IoErrorKind.other 0)], (), State.WriteMsg1,
   List.replicate MSG3_BYTES 0, 0⟩

/-- Concrete handshaker in `WriteMsg1` whose stream accepts zero bytes. -/
def fixtureZero1 : UnsafeClientHandshaker Unit :=
  ⟨some [Action.ready [], Action.ready [1]], (), State.WriteMsg1,
   List.replicate MSG3_BYTES 0, 0⟩

/-- Concrete handshaker in `WriteMsg3` whose stream accepts zero bytes. -/
def fixtureZero3 : UnsafeClientHandshaker Unit :=
  ⟨some [Action.ready [], Action.ready [1]], (), State.WriteMsg3,
   List.replicate MSG3_BYTES 0, 0⟩

/-- Concrete handshaker in `ReadMsg2` whose stream delivers zero bytes. -/
def fixtureEof2 : UnsafeClientHandshaker Unit :=
  ⟨some [Action.ready [], Action.ready [1]], (), State.ReadMsg2,
   List.replicate MSG3_BYTES 0, 0⟩

/-- Concrete handshaker in `ReadMsg4` whose stream delivers zero bytes. -/
def fixtureEof4 : UnsafeClientHandshaker Unit :=
  ⟨some [Action.ready [], Action.ready [1]], (), State.ReadMsg4,
   List.replicate MSG3_BYTES 0, 0⟩

/-- Concrete handshaker in `WriteMsg1` whose stream accepts five bytes and
then reports would-block. -/
def fixturePartial : UnsafeClientHandshaker Unit :=
  ⟨some [Action.ready [9, 9, 9, 9, 9], Action.pending], (), State.WriteMsg1,
   List.replicate MSG3_BYTES 0, 0⟩

/-- Concrete handshaker in `WriteMsg1` whose stream immediately reports
would-block. -/
def fixturePend : UnsafeClientHandshaker Unit :=
  ⟨some [Action.pending, Action.ready [1]], (), State.WriteMsg1,
   List.replicate MSG3_BYTES 0, 0⟩

/-- Relation between a poll result and the post-call handshaker: on
suspension the stream is stored back, on a terminal result (`ready` or
`failed`) the stream has been moved out (ownership passed to the caller),
and the dispatch branches themselves never panic. -/
def ResShape {C O : Type} (r : PollRes O) (h : UnsafeClientHandshaker C) : Prop :=
  (r = PollRes.pending → h.stream.isSome = true) ∧
  (∀ ov sv, r = PollRes.ready ov sv → h.stream = none) ∧
  (∀ e sv, r = PollRes.failed e sv → h.stream = none) ∧
  r ≠ PollRes.panicked

variable {C O : Type}

theorem writeLoop_exit (m : Nat) (d : List Nat) (o : Nat) (s : List Action)
    (hno : ¬ o < m) : writeLoop m d o s = (IoLoopRes.completed d o s, []) := by
  cases s with
  | nil => simp [writeLoop, hno]
  | cons a rest => cases a <;> simp [writeLoop, hno]

theorem readLoop_exit (m : Nat) (d : List Nat) (o : Nat) (s : List Action)
    (hno : ¬ o < m) : readLoop m d o s = (IoLoopRes.completed d o s, []) := by
  cases s with
  | nil => simp [readLoop, hno]
  | cons a rest => cases a <;> simp [readLoop, hno]

theorem pollReadMsg4_shape (E : ClientOps C O) (c : C) (d : List Nat) (o : Nat)
    (s : List Action) :
    ResShape (pollReadMsg4 E c d o s).1 (pollReadMsg4 E c d o s).2.1 := by
  rcases hr : readLoop MSG4_BYTES d o s with ⟨res, l⟩
  cases res with
  | completed d' o' s' =>
    simp only [pollReadMsg4, hr]
    split <;> simp [ResShape]
  | suspended d' o' s' => simp [pollReadMsg4, hr, ResShape]
  | ioFailed d' o' e s' => simp [pollReadMsg4, hr, ResShape]

theorem pollFlushMsg3_shape (E : ClientOps C O) (c : C) (d : List Nat) (o : Nat)
    (s : List Action) :
    ResShape (pollFlushMsg3 E c d o s).1 (pollFlushMsg3 E c d o s).2.1 := by
  cases s with
  | nil => simp [pollFlushMsg3, ResShape]
  | cons a rest =>
    cases a with
    | ready p =>
      have hsub := pollReadMsg4_shape E c d o rest
      simpa [pollFlushMsg3] using hsub
    | pending => simp [pollFlushMsg3, ResShape]
    | ioErr k => simp [pollFlushMsg3, ResShape]

theorem pollWriteMsg3_shape (E : ClientOps C O) (c : C) (d : List Nat) (o : Nat)
    (s : List Action) :
    ResShape (pollWriteMsg3 E c d o s).1 (pollWriteMsg3 E c d o s).2.1 := by
  rcases hr : writeLoop MSG3_BYTES d o s with ⟨res, l⟩
  cases res with
  | completed d' o' s' =>
    have hsub := pollFlushMsg3_shape E c d' 0 s'
    simpa [pollWriteMsg3, hr] using hsub
  | suspended d' o' s' => simp [pollWriteMsg3, hr, ResShape]
  | ioFailed d' o' e s' => simp [pollWriteMsg3, hr, ResShape]

theorem pollReadMsg2_shape (E : ClientOps C O) (c : C) (d : List Nat) (o : Nat)
    (s : List Action) :
    ResShape (pollReadMsg2 E c d o s).1 (pollReadMsg2 E c d o s).2.1 := by
  rcases hr : readLoop MSG2_BYTES d o s with ⟨res, l⟩
  cases res with
  | completed d' o' s' =>
    simp only [pollReadMsg2, hr]
    split
    · have hsub := pollWriteMsg3_shape E (E.create_msg3 (E.verify_msg2 c (d'.take MSG2_BYTES)).2).2
        (E.create_msg3 (E.verify_msg2 c (d'.take MSG2_BYTES)).2).1 0 s'
      simpa using hsub
    · simp [ResShape]
  | suspended d' o' s' => simp [pollReadMsg2, hr, ResShape]
  | ioFailed d' o' e s' => simp [pollReadMsg2, hr, ResShape]

theorem pollFlushMsg1_shape (E : ClientOps C O) (c : C) (d : List Nat) (o : Nat)
    (s : List Action) :
    ResShape (pollFlushMsg1 E c d o s).1 (pollFlushMsg1 E c d o s).2.1 := by
  cases s with
  | nil => simp [pollFlushMsg1, ResShape]
  | cons a rest =>
    cases a with
    | ready p =>
      have hsub := pollReadMsg2_shape E c d o rest
      simpa [pollFlushMsg1] using hsub
    | pending => simp [pollFlushMsg1, ResShape]
    | ioErr k => simp [pollFlushMsg1, ResShape]

theorem pollWriteMsg1_shape (E : ClientOps C O) (c : C) (d : List Nat) (o : Nat)
    (s : List Action) :
    ResShape (pollWriteMsg1 E c d o s).1 (pollWriteMsg1 E c d o s).2.1 := by
  rcases hr : writeLoop MSG1_BYTES d o s with ⟨res, l⟩
  cases res with
  | completed d' o' s' =>
    have hsub := pollFlushMsg1_shape E c d' 0 s'
    simpa [pollWriteMsg1, hr] using hsub
  | suspended d' o' s' => simp [pollWriteMsg1, hr, ResShape]
  | ioFailed d' o' e s' => simp [pollWriteMsg1, hr, ResShape]

theorem poll_shape (E : ClientOps C O) (h : UnsafeClientHandshaker C) (s : List Action)
    (hs : h.stream = some s) :
    ResShape (UnsafeClientHandshaker.poll E h).1 (UnsafeClientHandshaker.poll E h).2.1 := by
  cases hst : h.state with
  | WriteMsg1 =>
    have := pollWriteMsg1_shape E h.client h.data h.offset s
    simpa [UnsafeClientHandshaker.poll, hs, hst] using this
  | FlushMsg1 =>
    have := pollFlushMsg1_shape E h.client h.data h.offset s
    simpa [UnsafeClientHandshaker.poll, hs, hst] using this
  | ReadMsg2 =>
    have := pollReadMsg2_shape E h.client h.data h.offset s
    simpa [UnsafeClientHandshaker.poll, hs, hst] using this
  | WriteMsg3 =>
    have := pollWriteMsg3_shape E h.client h.data h.offset s
    simpa [UnsafeClientHandshaker.poll, hs, hst] using this
  | FlushMsg3 =>
    have := pollFlushMsg3_shape E h.client h.data h.offset s
    simpa [UnsafeClientHandshaker.poll, hs, hst] using this
  | ReadMsg4 =>
    have := pollReadMsg4_shape E h.client h.data h.offset s
    simpa [UnsafeClientHandshaker.poll, hs, hst] using this

theorem poll_none (E : ClientOps C O) (h : UnsafeClientHandshaker C)
    (hs : h.stream = none) :
    UnsafeClientHandshaker.poll E h = (PollRes.panicked, h, []) := by
  simp [UnsafeClientHandshaker.poll, hs]

/-- C2: for every `UnsafeClientHandshaker` whose previous poll reached a
terminal state (returned `Ready` with the outcome, or any `Err` carrying
the stream), calling `poll` again fails loudly: it panics via the `expect`
on the taken-out stream, performs no I/O (empty event log), and leaves the
handshaker — state, offset, buffer — untouched. -/
theorem poll_after_terminal_panics (E : ClientOps C O)
    (h h' : UnsafeClientHandshaker C) (r : PollRes O) (l : List Ev)
    (hp : UnsafeClientHandshaker.poll E h = (r, h', l))
    (hterm : (∃ ov sv, r = PollRes.ready ov sv) ∨ (∃ e sv, r = PollRes.failed e sv)) :
    UnsafeClientHandshaker.poll E h' = (PollRes.panicked, h', []) := by
  have h1 : (UnsafeClientHandshaker.poll E h).1 = r := by rw [hp]
  have h2 : (UnsafeClientHandshaker.poll E h).2.1 = h' := by rw [hp]
  have hnone : h'.stream = none := by
    cases hs : h.stream with
    | none =>
      rw [poll_none E h hs] at hp
      have hr : r = PollRes.panicked := by
        have := congrArg Prod.fst hp
        simpa using this.symm
      rcases hterm with ⟨ov, sv, he⟩ | ⟨e, sv, he⟩ <;> rw [hr] at he <;> simp at he
    | some s =>
      have hsh := poll_shape E h s hs
      rcases hterm with ⟨ov, sv, he⟩ | ⟨e, sv, he⟩
      · have := hsh.2.1 ov sv (h1.trans he)
        rwa [h2] at this
      · have := hsh.2.2.1 e sv (h1.trans he)
        rwa [h2] at this
  exact poll_none E h' hnone

/-- Witness for C2 at a concrete input: a stream error in `WriteMsg1`
terminates the handshake, and the next poll panics. -/
theorem poll_after_terminal_panics_witness :
    UnsafeClientHandshaker.poll (testOps false false)
        ((UnsafeClientHandshaker.poll (testOps false false) fixtureErr1).2.1) =
      (PollRes.panicked,
       (UnsafeClientHandshaker.poll (testOps false false) fixtureErr1).2.1, []) :=
  poll_after_terminal_panics (testOps false false) fixtureErr1 _ _ _ rfl
    (Or.inr ⟨HandshakeError.ioError (IoErrorKind.other 0), [], by decide⟩)

/-- C4: in both write states (`WriteMsg1`, `WriteMsg3`), a successful
`poll_write` reporting `0` bytes written makes `poll` return a fatal
`WriteZero` transport error together with ownership of the stream; nothing
is retried, the state does not advance, and the buffer and offset are left
as they were. -/
theorem zero_write_fatal (E : ClientOps C O) :
    (∀ (h : UnsafeClientHandshaker C) (rest : List Action),
      h.state = State.WriteMsg1 →
      h.stream = some (Action.ready [] :: rest) →
      h.offset < MSG1_BYTES →
      UnsafeClientHandshaker.poll E h =
        (PollRes.failed (HandshakeError.ioError IoErrorKind.writeZero) rest,
         ⟨none, h.client, State.WriteMsg1, h.data, h.offset⟩,
         [Ev.wroteReq h.offset MSG1_BYTES (Action.ready [])])) ∧
    (∀ (h : UnsafeClientHandshaker C) (rest : List Action),
      h.state = State.WriteMsg3 →
      h.stream = some (Action.ready [] :: rest) →
      h.offset < MSG3_BYTES →
      UnsafeClientHandshaker.poll E h =
        (PollRes.failed (HandshakeError.ioError IoErrorKind.writeZero) rest,
         ⟨none, h.client, State.WriteMsg3, h.data, h.offset⟩,
         [Ev.wroteReq h.offset MSG3_BYTES (Action.ready [])])) := by
  constructor
  · rintro ⟨st, c, stt, d, o⟩ rest hst hs hoff
    simp only at hst hs hoff
    subst hst hs
    simp [UnsafeClientHandshaker.poll, pollWriteMsg1, writeLoop, hoff]
  · rintro ⟨st, c, stt, d, o⟩ rest hst hs hoff
    simp only at hst hs hoff
    subst hst hs
    simp [UnsafeClientHandshaker.poll, pollWriteMsg3, writeLoop, hoff]

/-- Witness for C4 at concrete inputs in both write states. -/
theorem zero_write_fatal_witness :
    UnsafeClientHandshaker.poll (testOps false false) fixtureZero1 =
      (PollRes.failed (HandshakeError.ioError IoErrorKind.writeZero) [Action.ready [1]],
       ⟨none, (), State.WriteMsg1, List.replicate MSG3_BYTES 0, 0⟩,
       [Ev.wroteReq 0 MSG1_BYTES (Action.ready [])]) ∧
    UnsafeClientHandshaker.poll (testOps false false) fixtureZero3 =
      (PollRes.failed (HandshakeError.ioError IoErrorKind.writeZero) [Action.ready [1]],
       ⟨none, (), State.WriteMsg3, List.replicate MSG3_BYTES 0, 0⟩,
       [Ev.wroteReq 0 MSG3_BYTES (Action.ready [])]) :=
  ⟨(zero_write_fatal (testOps false false)).1 fixtureZero1 [Action.ready [1]]
      rfl rfl (by decide),
   (zero_write_fatal (testOps false false)).2 fixtureZero3 [Action.ready [1]]
      rfl rfl (by decide)⟩

/-- C5: in both read states (`ReadMsg2`, `ReadMsg4`), a successful
`poll_read` reporting `0` bytes before the expected message length has
been collected makes `poll` return a fatal `UnexpectedEof` error together
with ownership of the stream.  The theorem holds for every crypto engine
and leaves the `client` field untouched: verification is never attempted
on the incomplete buffer. -/
theorem zero_read_fatal (E : ClientOps C O) :
    (∀ (h : UnsafeClientHandshaker C) (rest : List Action),
      h.state = State.ReadMsg2 →
      h.stream = some (Action.ready [] :: rest) →
      h.offset < MSG2_BYTES →
      UnsafeClientHandshaker.poll E h =
        (PollRes.failed (HandshakeError.ioError IoErrorKind.unexpectedEof) rest,
         ⟨none, h.client, State.ReadMsg2, h.data, h.offset⟩,
         [Ev.readReq h.offset MSG2_BYTES (Action.ready [])])) ∧
    (∀ (h : UnsafeClientHandshaker C) (rest : List Action),
      h.state = State.ReadMsg4 →
      h.stream = some (Action.ready [] :: rest) →
      h.offset < MSG4_BYTES →
      UnsafeClientHandshaker.poll E h =
        (PollRes.failed (HandshakeError.ioError IoErrorKind.unexpectedEof) rest,
         ⟨none, h.client, State.ReadMsg4, h.data, h.offset⟩,
         [Ev.readReq h.offset MSG4_BYTES (Action.ready [])])) := by
  constructor
  · rintro ⟨st, c, stt, d, o⟩ rest hst hs hoff
    simp only at hst hs hoff
    subst hst hs
    simp [UnsafeClientHandshaker.poll, pollReadMsg2, readLoop, hoff]
  · rintro ⟨st, c, stt, d, o⟩ rest hst hs hoff
    simp only at hst hs hoff
    subst hst hs
    simp [UnsafeClientHandshaker.poll, pollReadMsg4, readLoop, hoff]

/-- Witness for C5 at concrete inputs in both read states. -/
theorem zero_read_fatal_witness :
    UnsafeClientHandshaker.poll (testOps false false) fixtureEof2 =
      (PollRes.failed (HandshakeError.ioError IoErrorKind.unexpectedEof) [Action.ready [1]],
       ⟨none, (), State.ReadMsg2, List.replicate MSG3_BYTES 0, 0⟩,
       [Ev.readReq 0 MSG2_BYTES (Action.ready [])]) ∧
    UnsafeClientHandshaker.poll (testOps false false) fixtureEof4 =
      (PollRes.failed (HandshakeError.ioError IoErrorKind.unexpectedEof) [Action.ready [1]],
       ⟨none, (), State.ReadMsg4, List.replicate MSG3_BYTES 0, 0⟩,
       [Ev.readReq 0 MSG4_BYTES (Action.ready [])]) :=
  ⟨(zero_read_fatal (testOps false false)).1 fixtureEof2 [Action.ready [1]]
      rfl rfl (by decide),
   (zero_read_fatal (testOps false false)).2 fixtureEof4 [Action.ready [1]]
      rfl rfl (by decide)⟩

/-- C8: dropping an `UnsafeClientHandshaker` — on any exit path, since
`Drop` runs unconditionally — zeroes every byte of the `data` buffer in
place (same length, all bytes `0`) before the memory is released. -/
theorem drop_zeroes_buffer {C' : Type} (h : UnsafeClientHandshaker C') :
    (dropUnsafeClientHandshaker h).data = List.replicate h.data.length 0 := by
  simp only [dropUnsafeClientHandshaker, memzero]
  induction h.data with
  | nil => rfl
  | cons b t ih => simp [List.replicate_succ, ih]

theorem trace_eq_of_inner_eq (E : ClientOps C O) :
    ∀ (n : Nat) (hc : ClientHandshaker C) (ho : OwningClientHandshaker C),
      hc.inner = ho.inner → clientTrace E hc n = owningTrace E ho n := by
  intro n
  induction n with
  | zero => intro hc ho _; rfl
  | succ k ih =>
    intro hc ho hinner
    simp only [clientTrace, owningTrace, ClientHandshaker.poll, OwningClientHandshaker.poll,
      hinner]
    exact congrArg _ (ih _ _ rfl)

/-- C9: a `ClientHandshaker` and an `OwningClientHandshaker` constructed
from the same stream and key material are behaviourally equivalent: every
poll in any sequence of polls produces the same result and performs the
same I/O, because both delegate to an `UnsafeClientHandshaker` built from
the same key values; the owning variant differs only in key storage. -/
theorem owning_equiv_client (E : ClientOps C O) (stream : List Action)
    (ni lpk lsk epk esk spk : List Nat) (n : Nat) :
    clientTrace E (ClientHandshaker.new E stream ni lpk lsk epk esk spk) n =
      owningTrace E (OwningClientHandshaker.new E stream ni lpk lsk epk esk spk) n :=
  trace_eq_of_inner_eq E n _ _ rfl

/-- C1: in `ReadMsg2` (resp. `ReadMsg4`), once the expected message is
fully collected, a failing `verify_msg2` (resp. `verify_msg4`) makes
`poll` return `Err((HandshakeError::CryptoError, stream))`: the handshake
terminates, the error carries ownership of the stream, and no further
protocol step is taken — the state does not advance and the log contains
only the read that completed the message. -/
theorem verify_failure_terminates (E : ClientOps C O) :
    (∀ (h : UnsafeClientHandshaker C) (p : List Nat) (rest : List Action),
      h.state = State.ReadMsg2 →
      h.stream = some (Action.ready p :: rest) →
      h.offset < MSG2_BYTES → MSG2_BYTES ≤ h.offset + p.length →
      (E.verify_msg2 h.client
        ((overwrite h.data h.offset (p.take (MSG2_BYTES - h.offset))).take MSG2_BYTES)).1
        = false →
      UnsafeClientHandshaker.poll E h =
        (PollRes.failed HandshakeError.cryptoError rest,
         ⟨none,
          (E.verify_msg2 h.client
            ((overwrite h.data h.offset (p.take (MSG2_BYTES - h.offset))).take MSG2_BYTES)).2,
          State.ReadMsg2,
          overwrite h.data h.offset (p.take (MSG2_BYTES - h.offset)),
          h.offset + p.length⟩,
         [Ev.readReq h.offset MSG2_BYTES (Action.ready p)])) ∧
    (∀ (h : UnsafeClientHandshaker C) (p : List Nat) (rest : List Action),
      h.state = State.ReadMsg4 →
      h.stream = some (Action.ready p :: rest) →
      h.offset < MSG4_BYTES → MSG4_BYTES ≤ h.offset + p.length →
      (E.verify_msg4 h.client
        ((overwrite h.data h.offset (p.take (MSG4_BYTES - h.offset))).take MSG4_BYTES)).1
        = false →
      UnsafeClientHandshaker.poll E h =
        (PollRes.failed HandshakeError.cryptoError rest,
         ⟨none,
          (E.verify_msg4 h.client
            ((overwrite h.data h.offset (p.take (MSG4_BYTES - h.offset))).take MSG4_BYTES)).2,
          State.ReadMsg4,
          overwrite h.data h.offset (p.take (MSG4_BYTES - h.offset)),
          h.offset + p.length⟩,
         [Ev.readReq h.offset MSG4_BYTES (Action.ready p)])) := by
  constructor
  · rintro ⟨st, c, stt, d, o⟩ p rest hst hs hoff hlen hv
    simp only at hst hs hoff hlen hv
    subst hst hs
    have hpne : ¬(p.length = 0) := by omega
    have hno : ¬(o + p.length < MSG2_BYTES) := by omega
    simp [UnsafeClientHandshaker.poll, pollReadMsg2, readLoop, readLoop_exit, hoff, hpne,
      hno, hv]
  · rintro ⟨st, c, stt, d, o⟩ p rest hst hs hoff hlen hv
    simp only at hst hs hoff hlen hv
    subst hst hs
    have hpne : ¬(p.length = 0) := by omega
    have hno : ¬(o + p.length < MSG4_BYTES) := by omega
    simp [UnsafeClientHandshaker.poll, pollReadMsg4, readLoop, readLoop_exit, hoff, hpne,
      hno, hv]

/-- Witness for C1 at concrete inputs: full messages arrive in one read in
each of `ReadMsg2` and `ReadMsg4`, verification fails, and poll returns
`CryptoError` with the stream. -/
theorem verify_failure_terminates_witness :
    UnsafeClientHandshaker.poll (testOps false false) fixtureRead2 =
      (PollRes.failed HandshakeError.cryptoError [Action.ready [7]],
       ⟨none, (), State.ReadMsg2,
        overwrite (List.replicate MSG3_BYTES 0) 0 ((List.replicate 64 9).take (MSG2_BYTES - 0)),
        0 + 64⟩,
       [Ev.readReq 0 MSG2_BYTES (Action.ready (List.replicate 64 9))]) ∧
    UnsafeClientHandshaker.poll (testOps false false) fixtureRead4 =
      (PollRes.failed HandshakeError.cryptoError [Action.ready [7]],
       ⟨none, (), State.ReadMsg4,
        overwrite (List.replicate MSG3_BYTES 0) 0 ((List.replicate 80 9).take (MSG4_BYTES - 0)),
        0 + 80⟩,
       [Ev.readReq 0 MSG4_BYTES (Action.ready (List.replicate 80 9))]) :=
  ⟨(verify_failure_terminates (testOps false false)).1 fixtureRead2
      (List.replicate 64 9) [Action.ready [7]] rfl rfl (by decide) (by decide) rfl,
   (verify_failure_terminates (testOps false false)).2 fixtureRead4
      (List.replicate 80 9) [Action.ready [7]] rfl rfl (by decide) (by decide) rfl⟩

/-- C3 counterexample: a poll that makes partial progress before the
stream reports would-block returns `Ok(Pending)` with an `offset` (and in
general a `state` and buffer) different from the values at the start of
that poll call: here a write of five bytes precedes the would-block, so
the offset at return is `5`, not the entry value `0`.  The claim's frame
condition "exactly the same as when that poll call began" is therefore
false. -/
theorem pending_entry_frame_counterexample :
    (UnsafeClientHandshaker.poll (testOps false false) fixturePartial).1 = PollRes.pending ∧
    (UnsafeClientHandshaker.poll (testOps false false) fixturePartial).2.1.offset ≠
      fixturePartial.offset := by
  decide

/-- C3 (amended): whenever `poll` returns `Ok(Pending)`, the stream is
stored back into the handshaker (conjunct 2), and the suspension itself
changes nothing: when the stream reports would-block before any progress
in the call, the returned handshaker differs from the entry one only in
the stream field (the would-block response consumed), with `state`,
`offset` and `data` exactly as they were, so the next poll re-attempts
the same partial operation on `data[offset..]` (conjunct 1).  Partial
progress made earlier in the same poll call is retained, not rolled
back. -/
theorem pending_preserves_fields (E : ClientOps C O) :
    (∀ (h : UnsafeClientHandshaker C) (rest : List Action),
      h.stream = some (Action.pending :: rest) → AboutToPoll h →
      UnsafeClientHandshaker.poll E h =
        (PollRes.pending, ⟨some rest, h.client, h.state, h.data, h.offset⟩,
         [suspendEv h.state h.offset])) ∧
    (∀ (h h' : UnsafeClientHandshaker C) (r : PollRes O) (l : List Ev),
      UnsafeClientHandshaker.poll E h = (r, h', l) → r = PollRes.pending →
      h'.stream.isSome = true) := by
  constructor
  · rintro ⟨st, c, stt, d, o⟩ rest hs hpos
    simp only at hs ⊢
    subst hs
    cases stt with
    | WriteMsg1 =>
      simp only [AboutToPoll] at hpos
      simp [UnsafeClientHandshaker.poll, pollWriteMsg1, writeLoop, hpos, suspendEv]
    | FlushMsg1 =>
      simp [UnsafeClientHandshaker.poll, pollFlushMsg1, suspendEv]
    | ReadMsg2 =>
      simp only [AboutToPoll] at hpos
      simp [UnsafeClientHandshaker.poll, pollReadMsg2, readLoop, hpos, suspendEv]
    | WriteMsg3 =>
      simp only [AboutToPoll] at hpos
      simp [UnsafeClientHandshaker.poll, pollWriteMsg3, writeLoop, hpos, suspendEv]
    | FlushMsg3 =>
      simp [UnsafeClientHandshaker.poll, pollFlushMsg3, suspendEv]
    | ReadMsg4 =>
      simp only [AboutToPoll] at hpos
      simp [UnsafeClientHandshaker.poll, pollReadMsg4, readLoop, hpos, suspendEv]
  · intro h h' r l hp hr
    cases hs : h.stream with
    | none =>
      rw [poll_none E h hs] at hp
      have : (PollRes.panicked : PollRes O) = r := by
        have := congrArg Prod.fst hp
        simpa using this
      rw [← this] at hr
      simp at hr
    | some s =>
      have hsh := poll_shape E h s hs
      have h1 : (UnsafeClientHandshaker.poll E h).1 = r := by rw [hp]
      have h2 : (UnsafeClientHandshaker.poll E h).2.1 = h' := by rw [hp]
      have := hsh.1 (h1.trans hr)
      rwa [h2] at this

/-- Witness for the amended C3 at a concrete input: an immediate
would-block in `WriteMsg1` suspends with only the stream field updated. -/
theorem pending_preserves_fields_witness :
    UnsafeClientHandshaker.poll (testOps false false) fixturePend =
      (PollRes.pending,
       ⟨some [Action.ready [1]], (), State.WriteMsg1, List.replicate MSG3_BYTES 0, 0⟩,
       [suspendEv State.WriteMsg1 0]) :=
  (pending_preserves_fields (testOps false false)).1 fixturePend [Action.ready [1]] rfl
    (by show (0 : Nat) < MSG1_BYTES; decide)

theorem setStateIdxs_nil : setStateIdxs [] = [] := rfl

theorem setStateIdxs_append (l1 l2 : List Ev) :
    setStateIdxs (l1 ++ l2) = setStateIdxs l1 ++ setStateIdxs l2 := by
  simp [setStateIdxs]

theorem setStateIdxs_cons_set (st : State) (off : Nat) (l : List Ev) :
    setStateIdxs (Ev.setState st off :: l) = stateIdx st :: setStateIdxs l := by
  simp [setStateIdxs]

theorem setStateIdxs_cons_wrote (o m : Nat) (a : Action) (l : List Ev) :
    setStateIdxs (Ev.wroteReq o m a :: l) = setStateIdxs l := by
  simp [setStateIdxs]

theorem setStateIdxs_cons_read (o m : Nat) (a : Action) (l : List Ev) :
    setStateIdxs (Ev.readReq o m a :: l) = setStateIdxs l := by
  simp [setStateIdxs]

theorem setStateIdxs_cons_flush (a : Action) (l : List Ev) :
    setStateIdxs (Ev.flushReq a :: l) = setStateIdxs l := by
  simp [setStateIdxs]

theorem setStateIdxs_cons_created (bs : List Nat) (l : List Ev) :
    setStateIdxs (Ev.createdMsg3 bs :: l) = setStateIdxs l := by
  simp [setStateIdxs]

theorem writeLoop_log_no_set (m : Nat) (d : List Nat) (s : List Action) :
    ∀ o, setStateIdxs (writeLoop m d o s).2 = [] := by
  induction s with
  | nil =>
    intro o
    by_cases h : o < m
    · simp [writeLoop, h, setStateIdxs]
    · simp [writeLoop_exit m d o [] h, setStateIdxs]
  | cons a rest ih =>
    intro o
    by_cases h : o < m
    · cases a with
      | ready p =>
        by_cases hp : p.length = 0
        · simp [writeLoop, h, hp, setStateIdxs]
        · simp only [writeLoop, if_pos h, if_neg hp]
          rw [setStateIdxs_cons_wrote]
          exact ih (o + p.length)
      | pending => simp [writeLoop, h, setStateIdxs]
      | ioErr k => simp [writeLoop, h, setStateIdxs]
    · simp [writeLoop_exit m d o (a :: rest) h, setStateIdxs]

theorem readLoop_log_no_set (m : Nat) (s : List Action) :
    ∀ d o, setStateIdxs (readLoop m d o s).2 = [] := by
  induction s with
  | nil =>
    intro d o
    by_cases h : o < m
    · simp [readLoop, h, setStateIdxs]
    · simp [readLoop_exit m d o [] h, setStateIdxs]
  | cons a rest ih =>
    intro d o
    by_cases h : o < m
    · cases a with
      | ready p =>
        by_cases hp : p.length = 0
        · simp [readLoop, h, hp, setStateIdxs]
        · simp only [readLoop, if_pos h, if_neg hp]
          rw [setStateIdxs_cons_read]
          exact ih (overwrite d o (p.take (m - o))) (o + p.length)
      | pending => simp [readLoop, h, setStateIdxs]
      | ioErr k => simp [readLoop, h, setStateIdxs]
    · simp [readLoop_exit m d o (a :: rest) h, setStateIdxs]

theorem pollReadMsg4_chain (E : ClientOps C O) (c : C) (d : List Nat) (o : Nat)
    (s : List Action) :
    setStateIdxs (pollReadMsg4 E c d o s).2.2 = [] ∧
    stateIdx (pollReadMsg4 E c d o s).2.1.state = 5 := by
  rcases hr : readLoop MSG4_BYTES d o s with ⟨res, l⟩
  have hl : setStateIdxs l = [] := by
    have := readLoop_log_no_set MSG4_BYTES s d o
    rw [hr] at this
    exact this
  cases res with
  | completed d' o' s' =>
    simp only [pollReadMsg4, hr]
    split <;> simp [hl, stateIdx]
  | suspended d' o' s' => simp [pollReadMsg4, hr, hl, stateIdx]
  | ioFailed d' o' e s' => simp [pollReadMsg4, hr, hl, stateIdx]

theorem pollFlushMsg3_chain (E : ClientOps C O) (c : C) (d : List Nat) (o : Nat)
    (s : List Action) :
    StrictAsc 4 (setStateIdxs (pollFlushMsg3 E c d o s).2.2) ∧
    stateIdx (pollFlushMsg3 E c d o s).2.1.state =
      lastD (setStateIdxs (pollFlushMsg3 E c d o s).2.2) 4 := by
  cases s with
  | nil => exact ⟨trivial, rfl⟩
  | cons a rest =>
    cases a with
    | ready p =>
      obtain ⟨h1, h2⟩ := pollReadMsg4_chain E c d o rest
      simp only [pollFlushMsg3]
      rw [setStateIdxs_cons_flush, setStateIdxs_cons_set, h1]
      exact ⟨⟨by decide, trivial⟩, h2⟩
    | pending => exact ⟨trivial, rfl⟩
    | ioErr k => exact ⟨trivial, rfl⟩

theorem pollWriteMsg3_chain (E : ClientOps C O) (c : C) (d : List Nat) (o : Nat)
    (s : List Action) :
    StrictAsc 3 (setStateIdxs (pollWriteMsg3 E c d o s).2.2) ∧
    stateIdx (pollWriteMsg3 E c d o s).2.1.state =
      lastD (setStateIdxs (pollWriteMsg3 E c d o s).2.2) 3 := by
  rcases hr : writeLoop MSG3_BYTES d o s with ⟨res, l⟩
  have hl : setStateIdxs l = [] := by
    have := writeLoop_log_no_set MSG3_BYTES d s o
    rw [hr] at this
    exact this
  cases res with
  | completed d' o' s' =>
    obtain ⟨h1, h2⟩ := pollFlushMsg3_chain E c d' 0 s'
    simp only [pollWriteMsg3, hr]
    rw [setStateIdxs_append, hl, List.nil_append, setStateIdxs_cons_set]
    exact ⟨⟨by decide, h1⟩, h2⟩
  | suspended d' o' s' => simp [pollWriteMsg3, hr, hl, stateIdx, lastD, StrictAsc]
  | ioFailed d' o' e s' => simp [pollWriteMsg3, hr, hl, stateIdx, lastD, StrictAsc]

theorem pollReadMsg2_chain (E : ClientOps C O) (c : C) (d : List Nat) (o : Nat)
    (s : List Action) :
    StrictAsc 2 (setStateIdxs (pollReadMsg2 E c d o s).2.2) ∧
    stateIdx (pollReadMsg2 E c d o s).2.1.state =
      lastD (setStateIdxs (pollReadMsg2 E c d o s).2.2) 2 := by
  rcases hr : readLoop MSG2_BYTES d o s with ⟨res, l⟩
  have hl : setStateIdxs l = [] := by
    have := readLoop_log_no_set MSG2_BYTES s d o
    rw [hr] at this
    exact this
  cases res with
  | completed d' o' s' =>
    simp only [pollReadMsg2, hr]
    split
    · obtain ⟨h1, h2⟩ := pollWriteMsg3_chain E
        (E.create_msg3 (E.verify_msg2 c (d'.take MSG2_BYTES)).2).2
        (E.create_msg3 (E.verify_msg2 c (d'.take MSG2_BYTES)).2).1 0 s'
      rw [setStateIdxs_append, hl, List.nil_append, setStateIdxs_cons_set,
        setStateIdxs_cons_created]
      exact ⟨⟨by decide, h1⟩, h2⟩
    · rw [hl]
      exact ⟨trivial, rfl⟩
  | suspended d' o' s' => simp [pollReadMsg2, hr, hl, stateIdx, lastD, StrictAsc]
  | ioFailed d' o' e s' => simp [pollReadMsg2, hr, hl, stateIdx, lastD, StrictAsc]

theorem pollFlushMsg1_chain (E : ClientOps C O) (c : C) (d : List Nat) (o : Nat)
    (s : List Action) :
    StrictAsc 1 (setStateIdxs (pollFlushMsg1 E c d o s).2.2) ∧
    stateIdx (pollFlushMsg1 E c d o s).2.1.state =
      lastD (setStateIdxs (pollFlushMsg1 E c d o s).2.2) 1 := by
  cases s with
  | nil => exact ⟨trivial, rfl⟩
  | cons a rest =>
    cases a with
    | ready p =>
      obtain ⟨h1, h2⟩ := pollReadMsg2_chain E c d o rest
      simp only [pollFlushMsg1]
      rw [setStateIdxs_cons_flush, setStateIdxs_cons_set]
      exact ⟨⟨by decide, h1⟩, h2⟩
    | pending => exact ⟨trivial, rfl⟩
    | ioErr k => exact ⟨trivial, rfl⟩

theorem pollWriteMsg1_chain (E : ClientOps C O) (c : C) (d : List Nat) (o : Nat)
    (s : List Action) :
    StrictAsc 0 (setStateIdxs (pollWriteMsg1 E c d o s).2.2) ∧
    stateIdx (pollWriteMsg1 E c d o s).2.1.state =
      lastD (setStateIdxs (pollWriteMsg1 E c d o s).2.2) 0 := by
  rcases hr : writeLoop MSG1_BYTES d o s with ⟨res, l⟩
  have hl : setStateIdxs l = [] := by
    have := writeLoop_log_no_set MSG1_BYTES d s o
    rw [hr] at this
    exact this
  cases res with
  | completed d' o' s' =>
    obtain ⟨h1, h2⟩ := pollFlushMsg1_chain E c d' 0 s'
    simp only [pollWriteMsg1, hr]
    rw [setStateIdxs_append, hl, List.nil_append, setStateIdxs_cons_set]
    exact ⟨⟨by decide, h1⟩, h2⟩
  | suspended d' o' s' => simp [pollWriteMsg1, hr, hl, stateIdx, lastD, StrictAsc]
  | ioFailed d' o' e s' => simp [pollWriteMsg1, hr, hl, stateIdx, lastD, StrictAsc]

theorem poll_chain (E : ClientOps C O) (h : UnsafeClientHandshaker C) :
    StrictAsc (stateIdx h.state) (setStateIdxs (UnsafeClientHandshaker.poll E h).2.2) ∧
    stateIdx (UnsafeClientHandshaker.poll E h).2.1.state =
      lastD (setStateIdxs (UnsafeClientHandshaker.poll E h).2.2) (stateIdx h.state) := by
  cases hs : h.stream with
  | none =>
    rw [poll_none E h hs]
    exact ⟨trivial, rfl⟩
  | some s =>
    cases hst : h.state with
    | WriteMsg1 =>
      have := pollWriteMsg1_chain E h.client h.data h.offset s
      simpa [UnsafeClientHandshaker.poll, hs, hst, stateIdx] using this
    | FlushMsg1 =>
      have := pollFlushMsg1_chain E h.client h.data h.offset s
      simpa [UnsafeClientHandshaker.poll, hs, hst, stateIdx] using this
    | ReadMsg2 =>
      have := pollReadMsg2_chain E h.client h.data h.offset s
      simpa [UnsafeClientHandshaker.poll, hs, hst, stateIdx] using this
    | WriteMsg3 =>
      have := pollWriteMsg3_chain E h.client h.data h.offset s
      simpa [UnsafeClientHandshaker.poll, hs, hst, stateIdx] using this
    | FlushMsg3 =>
      have := pollFlushMsg3_chain E h.client h.data h.offset s
      simpa [UnsafeClientHandshaker.poll, hs, hst, stateIdx] using this
    | ReadMsg4 =>
      obtain ⟨h1, h2⟩ := pollReadMsg4_chain E h.client h.data h.offset s
      constructor
      · simp only [UnsafeClientHandshaker.poll, hs, hst]
        rw [h1]
        exact trivial
      · simp only [UnsafeClientHandshaker.poll, hs, hst, stateIdx]
        rw [h1]
        simpa [stateIdx] using h2

theorem strictAsc_append (a : Nat) (l1 l2 : List Nat) (h1 : StrictAsc a l1)
    (h2 : StrictAsc (lastD l1 a) l2) : StrictAsc a (l1 ++ l2) := by
  induction l1 generalizing a with
  | nil => exact h2
  | cons b t ih => exact ⟨h1.1, ih b h1.2 h2⟩

theorem lastD_append (l1 l2 : List Nat) (a : Nat) :
    lastD (l1 ++ l2) a = lastD l2 (lastD l1 a) := by
  induction l1 generalizing a with
  | nil => rfl
  | cons b t ih => exact ih b

theorem pollIter_chain (E : ClientOps C O) :
    ∀ (n : Nat) (h : UnsafeClientHandshaker C),
      StrictAsc (stateIdx h.state) (setStateIdxs (pollIter E h n).2) ∧
      stateIdx (pollIter E h n).1.state =
        lastD (setStateIdxs (pollIter E h n).2) (stateIdx h.state) := by
  intro n
  induction n with
  | zero => intro h; exact ⟨trivial, rfl⟩
  | succ k ih =>
    intro h
    have hp := poll_chain E h
    have hi := ih (UnsafeClientHandshaker.poll E h).2.1
    simp only [pollIter, setStateIdxs_append]
    constructor
    · exact strictAsc_append _ _ _ hp.1 (by rw [← hp.2]; exact hi.1)
    · rw [lastD_append, ← hp.2]
      exact hi.2

/-- C6: across any number of `poll` calls with any stream behaviour, the
state assignments recorded in the execution form a strictly ascending
chain starting above the entry state's position in the fixed sequence
`WriteMsg1 → FlushMsg1 → ReadMsg2 → WriteMsg3 → FlushMsg3 → ReadMsg4`
(completion returns `Ready` without a further state assignment): no
execution ever assigns an earlier state after a later one has been
reached, and no state is ever revisited. -/
theorem states_strictly_forward (E : ClientOps C O) (h : UnsafeClientHandshaker C)
    (n : Nat) :
    StrictAsc (stateIdx h.state) (setStateIdxs (pollIter E h n).2) :=
  (pollIter_chain E n h).1

theorem mem_setStateIdxs {st : State} {off : Nat} {l : List Ev}
    (hm : Ev.setState st off ∈ l) : stateIdx st ∈ setStateIdxs l := by
  unfold setStateIdxs
  exact List.mem_filterMap.2 ⟨Ev.setState st off, hm, rfl⟩

theorem msg3Adj_of_no_set :
    ∀ l : List Ev, (∀ st off, Ev.setState st off ∉ l) → Msg3Adj l := by
  intro l
  induction l with
  | nil => intro _; trivial
  | cons e t ih =>
    intro hns
    cases e with
    | setState st off => exact absurd (List.mem_cons_self _ _) (hns st off)
    | wroteReq o m a => exact ih fun st off hm => hns st off (List.mem_cons_of_mem _ hm)
    | readReq o m a => exact ih fun st off hm => hns st off (List.mem_cons_of_mem _ hm)
    | flushReq a => exact ih fun st off hm => hns st off (List.mem_cons_of_mem _ hm)
    | createdMsg3 bs => exact ih fun st off hm => hns st off (List.mem_cons_of_mem _ hm)

theorem msg3Adj_append_of_no_set :
    ∀ l1 l2 : List Ev, (∀ st off, Ev.setState st off ∉ l1) → Msg3Adj l2 →
      Msg3Adj (l1 ++ l2) := by
  intro l1
  induction l1 with
  | nil => intro l2 _ h2; exact h2
  | cons e t ih =>
    intro l2 hns h2
    cases e with
    | setState st off => exact absurd (List.mem_cons_self _ _) (hns st off)
    | wroteReq o m a => exact ih l2 (fun st off hm => hns st off (List.mem_cons_of_mem _ hm)) h2
    | readReq o m a => exact ih l2 (fun st off hm => hns st off (List.mem_cons_of_mem _ hm)) h2
    | flushReq a => exact ih l2 (fun st off hm => hns st off (List.mem_cons_of_mem _ hm)) h2
    | createdMsg3 bs => exact ih l2 (fun st off hm => hns st off (List.mem_cons_of_mem _ hm)) h2

theorem writeLoop_no_setState (m : Nat) (d : List Nat) (s : List Action) (o : Nat) :
    ∀ st off, Ev.setState st off ∉ (writeLoop m d o s).2 := by
  intro st off hm
  have h1 := mem_setStateIdxs hm
  rw [writeLoop_log_no_set m d s o] at h1
  simp at h1

theorem readLoop_no_setState (m : Nat) (d : List Nat) (s : List Action) (o : Nat) :
    ∀ st off, Ev.setState st off ∉ (readLoop m d o s).2 := by
  intro st off hm
  have h1 := mem_setStateIdxs hm
  rw [readLoop_log_no_set m s d o] at h1
  simp at h1

theorem pollReadMsg4_c7 (E : ClientOps C O) (c : C) (d : List Nat) (o : Nat)
    (s : List Action) :
    (∀ st off, Ev.setState st off ∈ (pollReadMsg4 E c d o s).2.2 → off = 0) ∧
    Msg3Adj (pollReadMsg4 E c d o s).2.2 ∧
    FlushInv (pollReadMsg4 E c d o s).2.1 := by
  rcases hr : readLoop MSG4_BYTES d o s with ⟨res, l⟩
  have hns : ∀ st off, Ev.setState st off ∉ l := by
    have := readLoop_no_setState MSG4_BYTES d s o
    rw [hr] at this
    exact this
  have hadj : Msg3Adj l := msg3Adj_of_no_set l hns
  cases res with
  | completed d' o' s' =>
    simp only [pollReadMsg4, hr]
    split
    · exact ⟨fun st off hm => absurd hm (hns st off), hadj, by simp [FlushInv]⟩
    · exact ⟨fun st off hm => absurd hm (hns st off), hadj, by simp [FlushInv]⟩
  | suspended d' o' s' =>
    simp only [pollReadMsg4, hr]
    exact ⟨fun st off hm => absurd hm (hns st off), hadj, by simp [FlushInv]⟩
  | ioFailed d' o' e s' =>
    simp only [pollReadMsg4, hr]
    exact ⟨fun st off hm => absurd hm (hns st off), hadj, by simp [FlushInv]⟩

theorem pollFlushMsg3_c7 (E : ClientOps C O) (c : C) (d : List Nat) (o : Nat)
    (s : List Action) (ho : o = 0) :
    (∀ st off, Ev.setState st off ∈ (pollFlushMsg3 E c d o s).2.2 → off = 0) ∧
    Msg3Adj (pollFlushMsg3 E c d o s).2.2 ∧
    FlushInv (pollFlushMsg3 E c d o s).2.1 := by
  cases s with
  | nil =>
    refine ⟨fun st off hm => absurd hm (by simp [pollFlushMsg3]), ?_, ?_⟩
    · simp only [pollFlushMsg3]
      trivial
    · simp [pollFlushMsg3, FlushInv, ho]
  | cons a rest =>
    cases a with
    | ready p =>
      obtain ⟨h1, h2, h3⟩ := pollReadMsg4_c7 E c d o rest
      simp only [pollFlushMsg3]
      refine ⟨?_, ?_, h3⟩
      · intro st off hm
        rcases List.mem_cons.1 hm with he | hm1
        · cases he
        rcases List.mem_cons.1 hm1 with he | hm2
        · cases he; exact ho
        · exact h1 st off hm2
      · exact h2
    | pending =>
      refine ⟨fun st off hm => absurd hm (by simp [pollFlushMsg3]), ?_, ?_⟩
      · simp only [pollFlushMsg3]
        trivial
      · simp [pollFlushMsg3, FlushInv, ho]
    | ioErr k =>
      refine ⟨fun st off hm => absurd hm (by simp [pollFlushMsg3]), ?_, ?_⟩
      · simp only [pollFlushMsg3]
        trivial
      · simp [pollFlushMsg3, FlushInv, ho]

theorem pollWriteMsg3_c7 (E : ClientOps C O) (c : C) (d : List Nat) (o : Nat)
    (s : List Action) :
    (∀ st off, Ev.setState st off ∈ (pollWriteMsg3 E c d o s).2.2 → off = 0) ∧
    Msg3Adj (pollWriteMsg3 E c d o s).2.2 ∧
    FlushInv (pollWriteMsg3 E c d o s).2.1 := by
  rcases hr : writeLoop MSG3_BYTES d o s with ⟨res, l⟩
  have hns : ∀ st off, Ev.setState st off ∉ l := by
    have := writeLoop_no_setState MSG3_BYTES d s o
    rw [hr] at this
    exact this
  cases res with
  | completed d' o' s' =>
    obtain ⟨h1, h2, h3⟩ := pollFlushMsg3_c7 E c d' 0 s' rfl
    simp only [pollWriteMsg3, hr]
    refine ⟨?_, ?_, h3⟩
    · intro st off hm
      rcases List.mem_append.1 hm with hm1 | hm2
      · exact absurd hm1 (hns st off)
      rcases List.mem_cons.1 hm2 with he | hm3
      · cases he; rfl
      · exact h1 st off hm3
    · refine msg3Adj_append_of_no_set l _ hns ?_
      exact h2
  | suspended d' o' s' =>
    simp only [pollWriteMsg3, hr]
    exact ⟨fun st off hm => absurd hm (hns st off), msg3Adj_of_no_set l hns,
      by simp [FlushInv]⟩
  | ioFailed d' o' e s' =>
    simp only [pollWriteMsg3, hr]
    exact ⟨fun st off hm => absurd hm (hns st off), msg3Adj_of_no_set l hns,
      by simp [FlushInv]⟩

theorem pollReadMsg2_c7 (E : ClientOps C O) (c : C) (d : List Nat) (o : Nat)
    (s : List Action) :
    (∀ st off, Ev.setState st off ∈ (pollReadMsg2 E c d o s).2.2 → off = 0) ∧
    Msg3Adj (pollReadMsg2 E c d o s).2.2 ∧
    FlushInv (pollReadMsg2 E c d o s).2.1 := by
  rcases hr : readLoop MSG2_BYTES d o s with ⟨res, l⟩
  have hns : ∀ st off, Ev.setState st off ∉ l := by
    have := readLoop_no_setState MSG2_BYTES d s o
    rw [hr] at this
    exact this
  cases res with
  | completed d' o' s' =>
    simp only [pollReadMsg2, hr]
    split
    · obtain ⟨h1, h2, h3⟩ := pollWriteMsg3_c7 E
        (E.create_msg3 (E.verify_msg2 c (d'.take MSG2_BYTES)).2).2
        (E.create_msg3 (E.verify_msg2 c (d'.take MSG2_BYTES)).2).1 0 s'
      refine ⟨?_, ?_, h3⟩
      · intro st off hm
        rcases List.mem_append.1 hm with hm1 | hm2
        · exact absurd hm1 (hns st off)
        rcases List.mem_cons.1 hm2 with he | hm3
        · cases he; rfl
        rcases List.mem_cons.1 hm3 with he | hm4
        · cases he
        · exact h1 st off hm4
      · refine msg3Adj_append_of_no_set l _ hns ?_
        exact ⟨trivial, h2⟩
    · exact ⟨fun st off hm => absurd hm (hns st off), msg3Adj_of_no_set l hns,
        by simp [FlushInv]⟩
  | suspended d' o' s' =>
    simp only [pollReadMsg2, hr]
    exact ⟨fun st off hm => absurd hm (hns st off), msg3Adj_of_no_set l hns,
      by simp [FlushInv]⟩
  | ioFailed d' o' e s' =>
    simp only [pollReadMsg2, hr]
    exact ⟨fun st off hm => absurd hm (hns st off), msg3Adj_of_no_set l hns,
      by simp [FlushInv]⟩

theorem pollFlushMsg1_c7 (E : ClientOps C O) (c : C) (d : List Nat) (o : Nat)
    (s : List Action) (ho : o = 0) :
    (∀ st off, Ev.setState st off ∈ (pollFlushMsg1 E c d o s).2.2 → off = 0) ∧
    Msg3Adj (pollFlushMsg1 E c d o s).2.2 ∧
    FlushInv (pollFlushMsg1 E c d o s).2.1 := by
  cases s with
  | nil =>
    refine ⟨fun st off hm => absurd hm (by simp [pollFlushMsg1]), ?_, ?_⟩
    · simp only [pollFlushMsg1]
      trivial
    · simp [pollFlushMsg1, FlushInv, ho]
  | cons a rest =>
    cases a with
    | ready p =>
      obtain ⟨h1, h2, h3⟩ := pollReadMsg2_c7 E c d o rest
      simp only [pollFlushMsg1]
      refine ⟨?_, ?_, h3⟩
      · intro st off hm
        rcases List.mem_cons.1 hm with he | hm1
        · cases he
        rcases List.mem_cons.1 hm1 with he | hm2
        · cases he; exact ho
        · exact h1 st off hm2
      · exact h2
    | pending =>
      refine ⟨fun st off hm => absurd hm (by simp [pollFlushMsg1]), ?_, ?_⟩
      · simp only [pollFlushMsg1]
        trivial
      · simp [pollFlushMsg1, FlushInv, ho]
    | ioErr k =>
      refine ⟨fun st off hm => absurd hm (by simp [pollFlushMsg1]), ?_, ?_⟩
      · simp only [pollFlushMsg1]
        trivial
      · simp [pollFlushMsg1, FlushInv, ho]

theorem pollWriteMsg1_c7 (E : ClientOps C O) (c : C) (d : List Nat) (o : Nat)
    (s : List Action) :
    (∀ st off, Ev.setState st off ∈ (pollWriteMsg1 E c d o s).2.2 → off = 0) ∧
    Msg3Adj (pollWriteMsg1 E c d o s).2.2 ∧
    FlushInv (pollWriteMsg1 E c d o s).2.1 := by
  rcases hr : writeLoop MSG1_BYTES d o s with ⟨res, l⟩
  have hns : ∀ st off, Ev.setState st off ∉ l := by
    have := writeLoop_no_setState MSG1_BYTES d s o
    rw [hr] at this
    exact this
  cases res with
  | completed d' o' s' =>
    obtain ⟨h1, h2, h3⟩ := pollFlushMsg1_c7 E c d' 0 s' rfl
    simp only [pollWriteMsg1, hr]
    refine ⟨?_, ?_, h3⟩
    · intro st off hm
      rcases List.mem_append.1 hm with hm1 | hm2
      · exact absurd hm1 (hns st off)
      rcases List.mem_cons.1 hm2 with he | hm3
      · cases he; rfl
      · exact h1 st off hm3
    · refine msg3Adj_append_of_no_set l _ hns ?_
      exact h2
  | suspended d' o' s' =>
    simp only [pollWriteMsg1, hr]
    exact ⟨fun st off hm => absurd hm (hns st off), msg3Adj_of_no_set l hns,
      by simp [FlushInv]⟩
  | ioFailed d' o' e s' =>
    simp only [pollWriteMsg1, hr]
    exact ⟨fun st off hm => absurd hm (hns st off), msg3Adj_of_no_set l hns,
      by simp [FlushInv]⟩

/-- C7: starting from any configuration satisfying the flush-state
invariant (offset `0` in flush states — which holds in every reachable
configuration and is preserved below), every transition performed by
`poll` leaves the offset at `0` (the write-state exits assign it
explicitly; the flush-state exits inherit the already-zero offset), and
the transition into `WriteMsg3` is immediately followed by the
`create_msg3` call that materializes message 3 into the buffer before any
byte of it is written.  The invariant itself is preserved by the call. -/
theorem transitions_reset_offset (E : ClientOps C O) (h : UnsafeClientHandshaker C)
    (hfi : FlushInv h) :
    (∀ st off, Ev.setState st off ∈ (UnsafeClientHandshaker.poll E h).2.2 → off = 0) ∧
    Msg3Adj (UnsafeClientHandshaker.poll E h).2.2 ∧
    FlushInv (UnsafeClientHandshaker.poll E h).2.1 := by
  cases hs : h.stream with
  | none =>
    rw [poll_none E h hs]
    exact ⟨fun st off hm => absurd hm (by simp), trivial, hfi⟩
  | some s =>
    cases hst : h.state with
    | WriteMsg1 =>
      have := pollWriteMsg1_c7 E h.client h.data h.offset s
      simpa [UnsafeClientHandshaker.poll, hs, hst] using this
    | FlushMsg1 =>
      have := pollFlushMsg1_c7 E h.client h.data h.offset s (hfi (Or.inl hst))
      simpa [UnsafeClientHandshaker.poll, hs, hst] using this
    | ReadMsg2 =>
      have := pollReadMsg2_c7 E h.client h.data h.offset s
      simpa [UnsafeClientHandshaker.poll, hs, hst] using this
    | WriteMsg3 =>
      have := pollWriteMsg3_c7 E h.client h.data h.offset s
      simpa [UnsafeClientHandshaker.poll, hs, hst] using this
    | FlushMsg3 =>
      have := pollFlushMsg3_c7 E h.client h.data h.offset s (hfi (Or.inr hst))
      simpa [UnsafeClientHandshaker.poll, hs, hst] using this
    | ReadMsg4 =>
      have := pollReadMsg4_c7 E h.client h.data h.offset s
      simpa [UnsafeClientHandshaker.poll, hs, hst] using this

/-- Witness for C7 at a concrete input: message 2 verifies, the machine
transitions `ReadMsg2 → WriteMsg3 → FlushMsg3` (offsets `0`), and the
`createdMsg3` event follows the `WriteMsg3` assignment immediately. -/
theorem transitions_reset_offset_witness :
    (∀ st off,
      Ev.setState st off ∈
        (UnsafeClientHandshaker.poll (testOps true false) fixtureRead2).2.2 → off = 0) ∧
    Msg3Adj (UnsafeClientHandshaker.poll (testOps true false) fixtureRead2).2.2 ∧
    FlushInv (UnsafeClientHandshaker.poll (testOps true false) fixtureRead2).2.1 :=
  transitions_reset_offset (testOps true false) fixtureRead2 (fun _ => rfl)

theorem overwrite_length (d : List Nat) (i : Nat) (p : List Nat)
    (h : i + p.length ≤ d.length) : (overwrite d i p).length = d.length := by
  simp only [overwrite, List.length_append, List.length_take, List.length_drop]
  omega

theorem writeLoop_c10 (m : Nat) (hm : m ≤ MSG3_BYTES) (d : List Nat) (s : List Action) :
    ∀ o, o ≤ m → WbLog (writeLoop m d o s).2 →
      (∀ e ∈ (writeLoop m d o s).2, EvBounds e) ∧
      WriteLoopOut d m (writeLoop m d o s).1 := by
  induction s with
  | nil =>
    intro o ho _
    by_cases h : o < m
    · simp [writeLoop, h, WriteLoopOut, ho]
    · simp [writeLoop_exit m d o [] h, WriteLoopOut, ho]
  | cons a rest ih =>
    intro o ho hw
    by_cases h : o < m
    · cases a with
      | ready p =>
        by_cases hp : p.length = 0
        · simp [writeLoop, h, hp, WriteLoopOut, EvBounds, ho, hm]
        · simp only [writeLoop, if_pos h, if_neg hp] at hw ⊢
          have hhead : WbEv (Ev.wroteReq o m (Action.ready p)) :=
            hw _ (List.mem_cons_self _ _)
          have hple : p.length ≤ m - o := hhead
          have ho' : o + p.length ≤ m := by omega
          have hw' : WbLog (writeLoop m d (o + p.length) rest).2 :=
            fun e he => hw e (List.mem_cons_of_mem _ he)
          obtain ⟨hev, hout⟩ := ih (o + p.length) ho' hw'
          refine ⟨?_, hout⟩
          intro e he
          rcases List.mem_cons.1 he with he1 | he2
          · rw [he1]
            exact ⟨h, hm⟩
          · exact hev e he2
      | pending => simp [writeLoop, h, WriteLoopOut, EvBounds, ho, hm]
      | ioErr k => simp [writeLoop, h, WriteLoopOut, EvBounds, ho, hm]
    · simp [writeLoop_exit m d o (a :: rest) h, WriteLoopOut, ho]

theorem readLoop_c10 (m : Nat) (hm : m ≤ MSG3_BYTES) (s : List Action) :
    ∀ (d : List Nat) (o : Nat), m ≤ d.length → o ≤ m → WbLog (readLoop m d o s).2 →
      (∀ e ∈ (readLoop m d o s).2, EvBounds e) ∧
      ReadLoopOut d.length m (readLoop m d o s).1 := by
  induction s with
  | nil =>
    intro d o _ ho _
    by_cases h : o < m
    · simp [readLoop, h, ReadLoopOut, ho]
    · simp [readLoop_exit m d o [] h, ReadLoopOut, ho]
  | cons a rest ih =>
    intro d o hn ho hw
    by_cases h : o < m
    · cases a with
      | ready p =>
        by_cases hp : p.length = 0
        · simp [readLoop, h, hp, ReadLoopOut, EvBounds, ho, hm]
        · simp only [readLoop, if_pos h, if_neg hp] at hw ⊢
          have hhead : WbEv (Ev.readReq o m (Action.ready p)) :=
            hw _ (List.mem_cons_self _ _)
          have hple : p.length ≤ m - o := hhead
          have ho' : o + p.length ≤ m := by omega
          have hlen : (overwrite d o (p.take (m - o))).length = d.length := by
            apply overwrite_length
            have : (p.take (m - o)).length ≤ m - o := by
              simp [List.length_take]
            omega
          have hw' : WbLog (readLoop m (overwrite d o (p.take (m - o)))
              (o + p.length) rest).2 :=
            fun e he => hw e (List.mem_cons_of_mem _ he)
          have hn' : m ≤ (overwrite d o (p.take (m - o))).length := by
            rw [hlen]; exact hn
          obtain ⟨hev, hout⟩ := ih (overwrite d o (p.take (m - o))) (o + p.length)
            hn' ho' hw'
          rw [hlen] at hout
          refine ⟨?_, hout⟩
          intro e he
          rcases List.mem_cons.1 he with he1 | he2
          · rw [he1]
            exact ⟨h, hm⟩
          · exact hev e he2
      | pending => simp [readLoop, h, ReadLoopOut, EvBounds, ho, hm]
      | ioErr k => simp [readLoop, h, ReadLoopOut, EvBounds, ho, hm]
    · simp [readLoop_exit m d o (a :: rest) h, ReadLoopOut, ho]

theorem pollReadMsg4_c10 (E : ClientOps C O) (c : C) (d : List Nat) (o : Nat)
    (s : List Action) (hd : d.length = MSG3_BYTES) (ho : o ≤ MSG4_BYTES)
    (hw : WbLog (pollReadMsg4 E c d o s).2.2) :
    (∀ e ∈ (pollReadMsg4 E c d o s).2.2, EvBounds e) ∧
    Inv (pollReadMsg4 E c d o s).2.1 := by
  rcases hr : readLoop MSG4_BYTES d o s with ⟨res, l⟩
  have hm : MSG4_BYTES ≤ MSG3_BYTES := by decide
  have hn : MSG4_BYTES ≤ d.length := by rw [hd]; exact hm
  have hsub := readLoop_c10 MSG4_BYTES hm s d o hn ho
  rw [hr] at hsub
  cases res with
  | completed d' o' s' =>
    have hw' : WbLog l := by
      have : (pollReadMsg4 E c d o s).2.2 = l := by
        simp only [pollReadMsg4, hr]
        split <;> rfl
      rwa [this] at hw
    obtain ⟨hev, hout⟩ := hsub hw'
    obtain ⟨hlen, hole⟩ := hout
    simp only [pollReadMsg4, hr]
    split
    · exact ⟨hev, hole, fun hc => by rcases hc with hc | hc <;> simp at hc,
        show d'.length = MSG3_BYTES by rw [hlen, hd]⟩
    · exact ⟨hev, hole, fun hc => by rcases hc with hc | hc <;> simp at hc,
        show d'.length = MSG3_BYTES by rw [hlen, hd]⟩
  | suspended d' o' s' =>
    have hw' : WbLog l := by
      have : (pollReadMsg4 E c d o s).2.2 = l := by simp [pollReadMsg4, hr]
      rwa [this] at hw
    obtain ⟨hev, hout⟩ := hsub hw'
    obtain ⟨hlen, hole⟩ := hout
    simp only [pollReadMsg4, hr]
    exact ⟨hev, hole, fun hc => by rcases hc with hc | hc <;> simp at hc,
      show d'.length = MSG3_BYTES by rw [hlen, hd]⟩
  | ioFailed d' o' e s' =>
    have hw' : WbLog l := by
      have : (pollReadMsg4 E c d o s).2.2 = l := by simp [pollReadMsg4, hr]
      rwa [this] at hw
    obtain ⟨hev, hout⟩ := hsub hw'
    obtain ⟨hlen, hole⟩ := hout
    simp only [pollReadMsg4, hr]
    exact ⟨hev, hole, fun hc => by rcases hc with hc | hc <;> simp at hc,
      show d'.length = MSG3_BYTES by rw [hlen, hd]⟩

theorem pollFlushMsg3_c10 (E : ClientOps C O) (c : C) (d : List Nat) (o : Nat)
    (s : List Action) (hd : d.length = MSG3_BYTES) (ho : o = 0)
    (hw : WbLog (pollFlushMsg3 E c d o s).2.2) :
    (∀ e ∈ (pollFlushMsg3 E c d o s).2.2, EvBounds e) ∧
    Inv (pollFlushMsg3 E c d o s).2.1 := by
  cases s with
  | nil =>
    simp only [pollFlushMsg3]
    exact ⟨by simp, by simp [Inv, FlushInv, ho, hd]⟩
  | cons a rest =>
    cases a with
    | ready p =>
      have hw' : WbLog (pollReadMsg4 E c d o rest).2.2 := by
        intro e he
        apply hw
        simp only [pollFlushMsg3]
        exact List.mem_cons_of_mem _ (List.mem_cons_of_mem _ he)
      have ho4 : o ≤ MSG4_BYTES := by omega
      obtain ⟨hev, hinv⟩ := pollReadMsg4_c10 E c d o rest hd ho4 hw'
      simp only [pollFlushMsg3]
      refine ⟨?_, hinv⟩
      intro e he
      rcases List.mem_cons.1 he with he1 | he2
      · rw [he1]; trivial
      rcases List.mem_cons.1 he2 with he3 | he4
      · rw [he3]; trivial
      · exact hev e he4
    | pending =>
      simp only [pollFlushMsg3]
      exact ⟨by simp [EvBounds], by simp [Inv, FlushInv, ho, hd]⟩
    | ioErr k =>
      simp only [pollFlushMsg3]
      exact ⟨by simp [EvBounds], by simp [Inv, FlushInv, ho, hd]⟩

theorem pollWriteMsg3_c10 (E : ClientOps C O) (c : C) (d : List Nat) (o : Nat)
    (s : List Action) (hd : d.length = MSG3_BYTES) (ho : o ≤ MSG3_BYTES)
    (hw : WbLog (pollWriteMsg3 E c d o s).2.2) :
    (∀ e ∈ (pollWriteMsg3 E c d o s).2.2, EvBounds e) ∧
    Inv (pollWriteMsg3 E c d o s).2.1 := by
  rcases hr : writeLoop MSG3_BYTES d o s with ⟨res, l⟩
  have hm : MSG3_BYTES ≤ MSG3_BYTES := le_refl _
  have hsub := writeLoop_c10 MSG3_BYTES hm d s o ho
  rw [hr] at hsub
  cases res with
  | completed d' o' s' =>
    have hlog : (pollWriteMsg3 E c d o s).2.2 =
        l ++ Ev.setState State.FlushMsg3 0 :: (pollFlushMsg3 E c d' 0 s').2.2 := by
      simp [pollWriteMsg3, hr]
    have hw1 : WbLog l := by
      intro e he
      apply hw
      rw [hlog]
      exact List.mem_append.2 (Or.inl he)
    have hw2 : WbLog (pollFlushMsg3 E c d' 0 s').2.2 := by
      intro e he
      apply hw
      rw [hlog]
      exact List.mem_append.2 (Or.inr (List.mem_cons_of_mem _ he))
    obtain ⟨hev, hout⟩ := hsub hw1
    have hdd : d' = d := hout.1
    obtain ⟨hev2, hinv⟩ := pollFlushMsg3_c10 E c d' 0 s' (by rw [hdd]; exact hd) rfl hw2
    simp only [pollWriteMsg3, hr]
    refine ⟨?_, hinv⟩
    intro e he
    rcases List.mem_append.1 he with he1 | he2
    · exact hev e he1
    rcases List.mem_cons.1 he2 with he3 | he4
    · rw [he3]; trivial
    · exact hev2 e he4
  | suspended d' o' s' =>
    have hw' : WbLog l := by
      have : (pollWriteMsg3 E c d o s).2.2 = l := by simp [pollWriteMsg3, hr]
      rwa [this] at hw
    obtain ⟨hev, hout⟩ := hsub hw'
    obtain ⟨hdd, hole⟩ := hout
    simp only [pollWriteMsg3, hr]
    exact ⟨hev, hole, fun hc => by rcases hc with hc | hc <;> simp at hc,
      show d'.length = MSG3_BYTES by rw [hdd]; exact hd⟩
  | ioFailed d' o' e s' =>
    have hw' : WbLog l := by
      have : (pollWriteMsg3 E c d o s).2.2 = l := by simp [pollWriteMsg3, hr]
      rwa [this] at hw
    obtain ⟨hev, hout⟩ := hsub hw'
    obtain ⟨hdd, hole⟩ := hout
    simp only [pollWriteMsg3, hr]
    exact ⟨hev, hole, fun hc => by rcases hc with hc | hc <;> simp at hc,
      show d'.length = MSG3_BYTES by rw [hdd]; exact hd⟩

theorem pollReadMsg2_c10 (E : ClientOps C O) (hE : EngineWf E) (c : C) (d : List Nat)
    (o : Nat) (s : List Action) (hd : d.length = MSG3_BYTES) (ho : o ≤ MSG2_BYTES)
    (hw : WbLog (pollReadMsg2 E c d o s).2.2) :
    (∀ e ∈ (pollReadMsg2 E c d o s).2.2, EvBounds e) ∧
    Inv (pollReadMsg2 E c d o s).2.1 := by
  rcases hr : readLoop MSG2_BYTES d o s with ⟨res, l⟩
  have hm : MSG2_BYTES ≤ MSG3_BYTES := by decide
  have hn : MSG2_BYTES ≤ d.length := by rw [hd]; exact hm
  have hsub := readLoop_c10 MSG2_BYTES hm s d o hn ho
  rw [hr] at hsub
  cases res with
  | completed d' o' s' =>
    simp only [pollReadMsg2, hr]
    split
    · have hlog2 : WbLog (pollWriteMsg3 E
          (E.create_msg3 (E.verify_msg2 c (d'.take MSG2_BYTES)).2).2
          (E.create_msg3 (E.verify_msg2 c (d'.take MSG2_BYTES)).2).1 0 s').2.2 := by
        intro e he
        apply hw
        simp only [pollReadMsg2, hr]
        split
        · exact List.mem_append.2 (Or.inr (List.mem_cons_of_mem _
            (List.mem_cons_of_mem _ he)))
        · simp_all
      have hw1 : WbLog l := by
        intro e he
        apply hw
        simp only [pollReadMsg2, hr]
        split
        · exact List.mem_append.2 (Or.inl he)
        · simp_all
      obtain ⟨hev, _⟩ := hsub hw1
      have hlen3 : ((E.create_msg3 (E.verify_msg2 c (d'.take MSG2_BYTES)).2).1).length =
          MSG3_BYTES := hE _
      have h3le : (0 : Nat) ≤ MSG3_BYTES := Nat.zero_le _
      obtain ⟨hev2, hinv⟩ := pollWriteMsg3_c10 E
        (E.create_msg3 (E.verify_msg2 c (d'.take MSG2_BYTES)).2).2
        (E.create_msg3 (E.verify_msg2 c (d'.take MSG2_BYTES)).2).1 0 s' hlen3 h3le hlog2
      refine ⟨?_, hinv⟩
      intro e he
      rcases List.mem_append.1 he with he1 | he2
      · exact hev e he1
      rcases List.mem_cons.1 he2 with he3 | he4
      · rw [he3]; trivial
      rcases List.mem_cons.1 he4 with he5 | he6
      · rw [he5]; trivial
      · exact hev2 e he6
    · have hw1 : WbLog l := by
        intro e he
        apply hw
        simp only [pollReadMsg2, hr]
        split
        · simp_all
        · exact he
      obtain ⟨hev, hout⟩ := hsub hw1
      obtain ⟨hlen, hole⟩ := hout
      exact ⟨hev, hole, fun hc => by rcases hc with hc | hc <;> simp at hc,
        show d'.length = MSG3_BYTES by rw [hlen, hd]⟩
  | suspended d' o' s' =>
    have hw' : WbLog l := by
      have : (pollReadMsg2 E c d o s).2.2 = l := by simp [pollReadMsg2, hr]
      rwa [this] at hw
    obtain ⟨hev, hout⟩ := hsub hw'
    obtain ⟨hlen, hole⟩ := hout
    simp only [pollReadMsg2, hr]
    exact ⟨hev, hole, fun hc => by cases hc <;> simp_all, by rw [hlen, hd]⟩
  | ioFailed d' o' e s' =>
    have hw' : WbLog l := by
      have : (pollReadMsg2 E c d o s).2.2 = l := by simp [pollReadMsg2, hr]
      rwa [this] at hw
    obtain ⟨hev, hout⟩ := hsub hw'
    obtain ⟨hlen, hole⟩ := hout
    simp only [pollReadMsg2, hr]
    exact ⟨hev, hole, fun hc => by cases hc <;> simp_all, by rw [hlen, hd]⟩

theorem pollFlushMsg1_c10 (E : ClientOps C O) (hE : EngineWf E) (c : C)
    (d : List Nat) (o : Nat) (s : List Action) (hd : d.length = MSG3_BYTES)
    (ho : o = 0) (hw : WbLog (pollFlushMsg1 E c d o s).2.2) :
    (∀ e ∈ (pollFlushMsg1 E c d o s).2.2, EvBounds e) ∧
    Inv (pollFlushMsg1 E c d o s).2.1 := by
  cases s with
  | nil =>
    simp only [pollFlushMsg1]
    exact ⟨by simp, by simp [Inv, FlushInv, ho, hd]⟩
  | cons a rest =>
    cases a with
    | ready p =>
      have hw' : WbLog (pollReadMsg2 E c d o rest).2.2 := by
        intro e he
        apply hw
        simp only [pollFlushMsg1]
        exact List.mem_cons_of_mem _ (List.mem_cons_of_mem _ he)
      have ho2 : o ≤ MSG2_BYTES := by omega
      obtain ⟨hev, hinv⟩ := pollReadMsg2_c10 E hE c d o rest hd ho2 hw'
      simp only [pollFlushMsg1]
      refine ⟨?_, hinv⟩
      intro e he
      rcases List.mem_cons.1 he with he1 | he2
      · rw [he1]; trivial
      rcases List.mem_cons.1 he2 with he3 | he4
      · rw [he3]; trivial
      · exact hev e he4
    | pending =>
      simp only [pollFlushMsg1]
      exact ⟨by simp [EvBounds], by simp [Inv, FlushInv, ho, hd]⟩
    | ioErr k =>
      simp only [pollFlushMsg1]
      exact ⟨by simp [EvBounds], by simp [Inv, FlushInv, ho, hd]⟩

theorem pollWriteMsg1_c10 (E : ClientOps C O) (hE : EngineWf E) (c : C)
    (d : List Nat) (o : Nat) (s : List Action) (hd : d.length = MSG3_BYTES)
    (ho : o ≤ MSG1_BYTES) (hw : WbLog (pollWriteMsg1 E c d o s).2.2) :
    (∀ e ∈ (pollWriteMsg1 E c d o s).2.2, EvBounds e) ∧
    Inv (pollWriteMsg1 E c d o s).2.1 := by
  rcases hr : writeLoop MSG1_BYTES d o s with ⟨res, l⟩
  have hm : MSG1_BYTES ≤ MSG3_BYTES := by decide
  have hsub := writeLoop_c10 MSG1_BYTES hm d s o ho
  rw [hr] at hsub
  cases res with
  | completed d' o' s' =>
    have hlog : (pollWriteMsg1 E c d o s).2.2 =
        l ++ Ev.setState State.FlushMsg1 0 :: (pollFlushMsg1 E c d' 0 s').2.2 := by
      simp [pollWriteMsg1, hr]
    have hw1 : WbLog l := by
      intro e he
      apply hw
      rw [hlog]
      exact List.mem_append.2 (Or.inl he)
    have hw2 : WbLog (pollFlushMsg1 E c d' 0 s').2.2 := by
      intro e he
      apply hw
      rw [hlog]
      exact List.mem_append.2 (Or.inr (List.mem_cons_of_mem _ he))
    obtain ⟨hev, hout⟩ := hsub hw1
    have hdd : d' = d := hout.1
    obtain ⟨hev2, hinv⟩ := pollFlushMsg1_c10 E hE c d' 0 s' (by rw [hdd]; exact hd)
      rfl hw2
    simp only [pollWriteMsg1, hr]
    refine ⟨?_, hinv⟩
    intro e he
    rcases List.mem_append.1 he with he1 | he2
    · exact hev e he1
    rcases List.mem_cons.1 he2 with he3 | he4
    · rw [he3]; trivial
    · exact hev2 e he4
  | suspended d' o' s' =>
    have hw' : WbLog l := by
      have : (pollWriteMsg1 E c d o s).2.2 = l := by simp [pollWriteMsg1, hr]
      rwa [this] at hw
    obtain ⟨hev, hout⟩ := hsub hw'
    obtain ⟨hdd, hole⟩ := hout
    simp only [pollWriteMsg1, hr]
    exact ⟨hev, hole, fun hc => by rcases hc with hc | hc <;> simp at hc,
      show d'.length = MSG3_BYTES by rw [hdd]; exact hd⟩
  | ioFailed d' o' e s' =>
    have hw' : WbLog l := by
      have : (pollWriteMsg1 E c d o s).2.2 = l := by simp [pollWriteMsg1, hr]
      rwa [this] at hw
    obtain ⟨hev, hout⟩ := hsub hw'
    obtain ⟨hdd, hole⟩ := hout
    simp only [pollWriteMsg1, hr]
    exact ⟨hev, hole, fun hc => by rcases hc with hc | hc <;> simp at hc,
      show d'.length = MSG3_BYTES by rw [hdd]; exact hd⟩

/-- C10: assuming the stream never reports more bytes than the length of
the slice it was given (`WbLog`), and the crypto engine fills the buffer
with exactly `MSG3_BYTES` bytes (`EngineWf`, enforced in Rust by the
array type), every configuration satisfying the offset/buffer invariant
`Inv` keeps satisfying it across `poll` — the offset never exceeds the
byte length of the current state's message — and every slice
`data[offset..msgEnd]` taken from the `MSG3_BYTES`-sized buffer during
the call is in bounds (`EvBounds`), so the out-of-bounds panic branch of
slice indexing is unreachable. -/
theorem offset_within_bounds (E : ClientOps C O) (h : UnsafeClientHandshaker C)
    (hE : EngineWf E) (hInv : Inv h)
    (hw : WbLog (UnsafeClientHandshaker.poll E h).2.2) :
    (∀ e ∈ (UnsafeClientHandshaker.poll E h).2.2, EvBounds e) ∧
    Inv (UnsafeClientHandshaker.poll E h).2.1 := by
  obtain ⟨hob, hfi, hdl⟩ := hInv
  cases hs : h.stream with
  | none =>
    rw [poll_none E h hs]
    rw [poll_none E h hs] at hw
    exact ⟨by simp, hob, hfi, hdl⟩
  | some s =>
    cases hst : h.state with
    | WriteMsg1 =>
      rw [hst] at hob
      have hw' : WbLog (pollWriteMsg1 E h.client h.data h.offset s).2.2 := by
        rw [UnsafeClientHandshaker.poll, hs, hst] at hw
        exact hw
      have := pollWriteMsg1_c10 E hE h.client h.data h.offset s hdl hob hw'
      simpa [UnsafeClientHandshaker.poll, hs, hst] using this
    | FlushMsg1 =>
      have hzero : h.offset = 0 := hfi (Or.inl hst)
      have hw' : WbLog (pollFlushMsg1 E h.client h.data h.offset s).2.2 := by
        rw [UnsafeClientHandshaker.poll, hs, hst] at hw
        exact hw
      have := pollFlushMsg1_c10 E hE h.client h.data h.offset s hdl hzero hw'
      simpa [UnsafeClientHandshaker.poll, hs, hst] using this
    | ReadMsg2 =>
      rw [hst] at hob
      have hw' : WbLog (pollReadMsg2 E h.client h.data h.offset s).2.2 := by
        rw [UnsafeClientHandshaker.poll, hs, hst] at hw
        exact hw
      have := pollReadMsg2_c10 E hE h.client h.data h.offset s hdl hob hw'
      simpa [UnsafeClientHandshaker.poll, hs, hst] using this
    | WriteMsg3 =>
      rw [hst] at hob
      have hw' : WbLog (pollWriteMsg3 E h.client h.data h.offset s).2.2 := by
        rw [UnsafeClientHandshaker.poll, hs, hst] at hw
        exact hw
      have := pollWriteMsg3_c10 E h.client h.data h.offset s hdl hob hw'
      simpa [UnsafeClientHandshaker.poll, hs, hst] using this
    | FlushMsg3 =>
      have hzero : h.offset = 0 := hfi (Or.inr hst)
      have hw' : WbLog (pollFlushMsg3 E h.client h.data h.offset s).2.2 := by
        rw [UnsafeClientHandshaker.poll, hs, hst] at hw
        exact hw
      have := pollFlushMsg3_c10 E h.client h.data h.offset s hdl hzero hw'
      simpa [UnsafeClientHandshaker.poll, hs, hst] using this
    | ReadMsg4 =>
      rw [hst] at hob
      have hw' : WbLog (pollReadMsg4 E h.client h.data h.offset s).2.2 := by
        rw [UnsafeClientHandshaker.poll, hs, hst] at hw
        exact hw
      have := pollReadMsg4_c10 E h.client h.data h.offset s hdl hob hw'
      simpa [UnsafeClientHandshaker.poll, hs, hst] using this

/-- Witness for C10 at a concrete input: a full poll run through
`ReadMsg2 → WriteMsg3` on a well-behaved stream keeps the invariant and
performs only in-bounds slice accesses. -/
theorem offset_within_bounds_witness :
    (∀ e ∈ (UnsafeClientHandshaker.poll (testOps true false) fixtureRead2).2.2,
      EvBounds e) ∧
    Inv (UnsafeClientHandshaker.poll (testOps true false) fixtureRead2).2.1 :=
  offset_within_bounds (testOps true false) fixtureRead2
    (fun c => by simp [testOps]) (by decide) (by decide)

end SecretHandshake
